import Mathlib

set_option maxHeartbeats 1000000

/-!
Shallow embedding of the non-visual engine of `td_gui.py` (Trade-Dangerous GUI):
the option/command introspection model, the selection state machine with
mutual-exclusion groups, the argument builder, the JSON preference store and
the route-output parser.

Modelling conventions:
- Python strings are Lean `String`s; `str.strip()` is modelled over the ASCII
  whitespace characters (space, tab, newline, carriage return, vertical tab,
  form feed) that Python strips; inputs in this development are ASCII.
- Python dicts that preserve insertion order (`self._selected`, the JSON
  `options` maps) are association lists; Tk variables are plain fields.
- JSON values read back with an `isinstance` check are modelled as `Option`
  fields: `some x` means the key is present with the right type.
- Machine integers are `Int`; Python `["-v"] * n` for `n : Int` is
  `List.replicate n.toNat "-v"` (a negative count yields the empty list in
  both).
-/

/-! ### Python string primitives -/

/-- ASCII whitespace as recognised by Python `str.strip` and the regex `\s`
(the unicode space classes do not occur in this program's data). -/
def pyIsSpace (c : Char) : Bool :=
  c = ' ' || c = '\t' || c = '\n' || c = '\r' || c = '\x0b' || c = '\x0c'

/-- List-level core of Python `str.strip()`. -/
def trimChars (cs : List Char) : List Char :=
  ((cs.dropWhile pyIsSpace).reverse.dropWhile pyIsSpace).reverse

/-- Python `s.strip()`. -/
def pyStrip (s : String) : String :=
  String.mk (trimChars s.data)

/-- Python `s.lstrip('-')`. -/
def pyLstripDash (s : String) : String :=
  String.mk (s.data.dropWhile (fun c => c = '-'))

/-- Python `s.startswith(pre)`, over character lists (kernel-reducible). -/
def pyStartsWith (s pre : String) : Bool :=
  s.data.take pre.data.length = pre.data

/-- Python `c in s` for a single character. -/
def pyContains (s : String) (c : Char) : Bool :=
  s.data.contains c

/-- Worker for Python `s.split(sep)` with a one-character separator. -/
def pySplitAux (sep : Char) : List Char → List Char → List String
  | [], acc => [String.mk acc.reverse]
  | c :: rest, acc =>
    if c = sep then String.mk acc.reverse :: pySplitAux sep rest []
    else pySplitAux sep rest (c :: acc)

/-- Python `s.split(sep)`: splits at every separator, keeping empty pieces
(`"".split(',') == ['']`). -/
def pySplit (s : String) (sep : Char) : List String :=
  pySplitAux sep s.data []

/-- Line-boundary characters of Python `str.splitlines`. -/
def isLineBreak (c : Char) : Bool :=
  c = '\n' || c = '\r' || c = '\x0b' || c = '\x0c' || c = '\x1c' || c = '\x1d' ||
  c = '\x1e' || c = '\x85' || c = '\u2028' || c = '\u2029'

/-- Worker for `splitlines`: `acc` holds the current line's characters in
reverse. A `\r\n` pair counts as a single boundary; a trailing boundary does
not open an empty final line (Python semantics). -/
def splitlinesAux : List Char → List Char → List String
  | [], acc => if acc.isEmpty then [] else [String.mk acc.reverse]
  | '\r' :: '\n' :: rest, acc => String.mk acc.reverse :: splitlinesAux rest []
  | c :: rest, acc =>
    if isLineBreak c then String.mk acc.reverse :: splitlinesAux rest []
    else splitlinesAux rest (c :: acc)

/-- Python `text.splitlines()`. -/
def splitlines (s : String) : List String :=
  splitlinesAux s.data []

/-- Python `"\n".join(lines)`. -/
def joinLines : List String → String
  | [] => ""
  | [x] => x
  | x :: rest => x ++ "\n" ++ joinLines rest

/-! ### ANSI stripping: `re.sub(r"\x1b\[[0-9;]*m", "", s)` -/

/-- A character allowed in the parameter body of the ANSI colour sequence. -/
def isAnsiParam (c : Char) : Bool :=
  c = ';' || ('0' ≤ c && c ≤ '9')

/-- After `ESC [`, consume `[0-9;]*` then `m`; return the rest on success. -/
def dropAnsiBody : List Char → Option (List Char)
  | [] => none
  | c :: rest =>
    if c = 'm' then some rest
    else if isAnsiParam c then dropAnsiBody rest
    else none

/-- Remove every leftmost non-overlapping match of `ESC [ params m`, as
`re.sub` does: on a failed candidate the scan resumes at the next character
(no later match can begin inside the failed `ESC [` prefix, since neither
`ESC` nor `[` is a parameter character). The structural fuel counts scan
steps; every step either finishes or consumes at least one character, so a
fuel equal to the input length is never exhausted. -/
def stripAnsiFuel : Nat → List Char → List Char
  | 0, l => l
  | _ + 1, [] => []
  | fuel + 1, c :: rest =>
    if c = '\x1b' then
      match rest with
      | '[' :: rest2 =>
        match dropAnsiBody rest2 with
        | some restTail => stripAnsiFuel fuel restTail
        | none => c :: '[' :: stripAnsiFuel fuel rest2
      | [] => [c]
      | c2 :: rest2 => c :: stripAnsiFuel fuel (c2 :: rest2)
    else c :: stripAnsiFuel fuel rest

def stripAnsiList (l : List Char) : List Char :=
  stripAnsiFuel l.length l

/-- `TdGuiApp._strip_ansi`. -/
def stripAnsiStr (s : String) : String :=
  String.mk (stripAnsiList s.data)

/-! ### Route-start pattern

`start_pat = re.compile(r"^\s*(.+?)\s*->\s*(.+?)(?:\s*\(score:.*)?\s*$")`,
used with `re.match`. On a line without newline characters the pattern
matches exactly when the line contains an occurrence of `->` with at least
one character before it and at least one character after it: group 1 is
`.+?` (one or more arbitrary characters, whitespace included, since `\s*`
segments may backtrack to empty), and group 2 needs at least one character
after the arrow. -/

/-- There is an arrow `->` at position `i`. -/
def hasArrowAt (cs : List Char) (i : Nat) : Bool :=
  cs.getD i ' ' = '-' && cs.getD (i + 1) ' ' = '>'

/-- Position `i` is a viable arrow for the route-start pattern: at least one
character before (`i ≥ 1`, the lazy group 1) and one after (`i + 3 ≤ len`,
the lazy group 2). -/
def viableArrow (cs : List Char) (i : Nat) : Bool :=
  1 ≤ i && i + 3 ≤ cs.length && hasArrowAt cs i

/-- Truthiness of `start_pat.match(line)`. -/
def routeStart (line : String) : Bool :=
  (List.range line.data.length).any (fun i => viableArrow line.data i)

/-- The tail after group 2 must match `(?:\s*\(score:.*)?\s*$`: either all
whitespace, or `(score:` after optional whitespace. -/
def tailOk (r : List Char) : Bool :=
  r.all pyIsSpace || pyStartsWith (String.mk (r.dropWhile pyIsSpace)) "(score:"

/-- `m.group(2).strip() if m else ""` for `m = start_pat.match(line)`.
The backtracking engine matches the arrow at the earliest viable position;
after it, `\s*` greedily takes the whitespace run (backing off one character
when nothing would remain for the lazy group 2), and group 2 is the shortest
non-empty segment whose remainder satisfies the optional score annotation or
trailing whitespace. An all-whitespace suffix therefore leaves a single
whitespace character as group 2, which strips to the empty string. -/
def destOf (line : String) : String :=
  match (List.range line.data.length).find? (fun i => viableArrow line.data i) with
  | none => ""
  | some i =>
    let suf := line.data.drop (i + 2)
    let c0 := (suf.takeWhile pyIsSpace).length
    if c0 = suf.length then ""
    else
      let s2 := suf.drop c0
      match (List.range (s2.length + 1)).find? (fun k => 1 ≤ k && tailOk (s2.drop k)) with
      | some k => pyStrip (String.mk (s2.take k))
      | none => pyStrip (String.mk s2)

/-! ### The route parser, `TdGuiApp._parse_routes` -/

/-- One parsed route: the trimmed block text and the stripped right-hand side
of the `origin -> destination` first line (empty when the first line does not
match the pattern). -/
structure RouteRecord where
  block : String
  dest : String
deriving DecidableEq, Repr

/-- Close the accumulated block: trim it, and if non-empty emit a record whose
destination is re-extracted from the block's first line. -/
def closeBlock (current : List String) (routes : List RouteRecord) : List RouteRecord :=
  let block := pyStrip (joinLines current)
  if block = "" then routes
  else routes ++ [{ block := block, dest := destOf (current.headD "") }]

/-- One iteration of the line loop of `_parse_routes`: a matching line closes
any open block; a blank line is retained only inside an open block; any other
line (and the matching line itself) is appended to the current block. -/
def parseStep (acc : List RouteRecord × List String) (ln : String) :
    List RouteRecord × List String :=
  let routes := acc.1
  let current := acc.2
  let closed :=
    if routeStart ln then
      if current ≠ [] then (closeBlock current routes, ([] : List String))
      else (routes, current)
    else (routes, current)
  if pyStrip ln = "" then
    if closed.2 ≠ [] then (closed.1, closed.2 ++ [ln]) else closed
  else (closed.1, closed.2 ++ [ln])

/-- `TdGuiApp._parse_routes`: strip ANSI escapes, split into lines, fold the
line loop, close the final block. -/
def parseRoutes (text : String) : List RouteRecord :=
  let lines := splitlines (stripAnsiStr text)
  let fin := lines.foldl parseStep ([], [])
  if fin.2 ≠ [] then closeBlock fin.2 fin.1 else fin.1

/-! ### Option and command introspection model

`OptionSpec` in the source stores the raw `(args, kwargs)` of one argparse
declaration plus an optional mutual-exclusion `group_id`; all behaviour is
derived through properties. The embedding stores the kwargs entries the
engine reads (`dest`, `action`, `default`, `help`, `choices`). `dflt` models
`kwargs.get("default")` as rendered by `str(...)`: `none` stands for a
default of `None` or `False` (the two values the seeding step ignores). -/

structure OptionSpec where
  args : List String
  dest : Option String
  action : Option String
  dflt : Option String
  helpText : String
  choices : Option (List String)
  group_id : Option Nat
deriving DecidableEq, Repr

/-- `OptionSpec.long_flag`: prefer a `--long` spelling, else the first. -/
def OptionSpec.long_flag (s : OptionSpec) : String :=
  match s.args.filter (fun a => pyStartsWith a "--") with
  | l :: _ => l
  | [] => s.args.headD ""

/-- `OptionSpec.display_name`. -/
def OptionSpec.display_name (s : OptionSpec) : String :=
  s.long_flag

/-- `OptionSpec.is_flag`: `action == "store_true"`. -/
def OptionSpec.is_flag (s : OptionSpec) : Bool :=
  s.action = some "store_true"

/-- `OptionSpec.is_positional`: the first declared name has no leading dash. -/
def OptionSpec.is_positional (s : OptionSpec) : Bool :=
  match s.args with
  | [] => false
  | a :: _ => !(pyStartsWith a "-")

/-- `OptionSpec.multiple`: `action == "append"`. -/
def OptionSpec.multiple (s : OptionSpec) : Bool :=
  s.action = some "append"

/-- Fallback of `OptionSpec.key` when `dest` is missing or empty:
`self.args[0] if self.args else self.long_flag.lstrip('-')`. -/
def OptionSpec.argsKey (s : OptionSpec) : String :=
  match s.args with
  | a :: _ => a
  | [] => pyLstripDash s.long_flag

/-- `OptionSpec.key`: `kwargs.get("dest") or args-fallback` (Python `or`
falls through on an empty `dest` string as well as on `None`). -/
def OptionSpec.key (s : OptionSpec) : String :=
  match s.dest with
  | some d => if d = "" then s.argsKey else d
  | none => s.argsKey

/-- `CommandMeta`: required (positional) specs, optional switches, and the
optional literal `fixed_args` vector of the synthetic composite command. -/
structure CommandMeta where
  name : String
  helpText : String
  arguments : List OptionSpec
  switches : List OptionSpec
  fixed_args : Option (List String)
deriving DecidableEq, Repr

/-- All specs of a command in UI construction order: required first, then
switches (the order `_categorize_current` presents for a generic command;
the special 'run' layout permutes the same set, which no result here depends
on). -/
def CommandMeta.specs (c : CommandMeta) : List OptionSpec :=
  c.arguments ++ c.switches

def CommandMeta.nspecs (c : CommandMeta) : Nat :=
  c.specs.length

/-- Placeholder spec for out-of-range indices (never reachable on the states
this development constructs). -/
def emptySpec : OptionSpec :=
  { args := [], dest := none, action := none, dflt := none, helpText := "",
    choices := none, group_id := none }

/-- The spec at index `i` of the command's construction order. -/
def specAt (c : CommandMeta) (i : Nat) : OptionSpec :=
  c.specs.getD i emptySpec

/-- `spec in self.current_meta.arguments`: the specs created from the
`arguments` list are exactly the first `c.arguments.length` indices. -/
def isRequired (c : CommandMeta) (i : Nat) : Bool :=
  i < c.arguments.length

/-! ### Selection state

`self.widget_vars[spec]["selected"]` is a Boolean Tk variable per spec,
modelled as the total map `sel`; `self._selected` is an insertion-ordered
dict from spec to its editor row holding either a Boolean flag variable or a
string value variable, modelled as an association list keyed by spec index. -/

inductive RowVal where
  | flagVal (b : Bool)
  | strVal (v : String)
deriving DecidableEq, Repr

/-- Two row values hold the same kind of Tk variable. -/
def sameKind : RowVal → RowVal → Bool
  | .flagVal _, .flagVal _ => true
  | .strVal _, .strVal _ => true
  | _, _ => false

/-- Association-list lookup (first match), with decidable keys. -/
def alookup {α β : Type} [DecidableEq α] (k : α) : List (α × β) → Option β
  | [] => none
  | p :: rest => if p.1 = k then some p.2 else alookup k rest

/-- Overwrite the value stored under an existing key, in place. -/
def updKey {α β : Type} [DecidableEq α] (k : α) (v : β) : List (α × β) → List (α × β)
  | [] => []
  | p :: rest => (if p.1 = k then (k, v) else p) :: updKey k v rest

/-- Insert-or-update preserving position, like writing into a Python dict. -/
def assocSet {α β : Type} [DecidableEq α] (m : List (α × β)) (k : α) (v : β) :
    List (α × β) :=
  if (alookup k m).isSome then updKey k v m
  else m ++ [(k, v)]

/-- Remove the entry stored under a key (Python `dict.pop(key, None)`; keys
are unique in every dict this models). -/
def eraseKey {α β : Type} [DecidableEq α] (i : α) : List (α × β) → List (α × β)
  | [] => []
  | p :: rest => if p.1 = i then eraseKey i rest else p :: eraseKey i rest

structure UIState where
  sel : Nat → Bool
  rows : List (Nat × RowVal)

/-- Point update of the selection map (writing a Boolean Tk variable). -/
def setSel (f : Nat → Bool) (i : Nat) (b : Bool) : Nat → Bool :=
  fun j => if j = i then b else f j

/-- The value a fresh editor row starts with (`_ensure_selected_row`): flags
get a checked indicator, value entries are pre-filled with the default when
it is neither `None` nor `False`. -/
def initRowVal (s : OptionSpec) : RowVal :=
  if s.is_flag then .flagVal true
  else .strVal (s.dflt.getD "")

/-- `_ensure_selected_row`: no-op when the row exists, else append a fresh
row at the end of the ordered dict. -/
def ensureRow (c : CommandMeta) (st : UIState) (i : Nat) : UIState :=
  if (alookup i st.rows).isSome then st
  else { st with rows := st.rows ++ [(i, initRowVal (specAt c i))] }

/-- `_remove_selected_row`: drop the row for `i` (remaining rows keep their
relative order; the re-gridding is purely visual). -/
def removeRow (st : UIState) (i : Nat) : UIState :=
  { st with rows := eraseKey i st.rows }

/-- One iteration of the mutual-exclusion loop of `_on_toggle_option`: if the
visited spec `j` is another member of group `g` and its selection variable is
currently true, that variable is written to `False`, which recursively
removes its row (`_on_toggle_option(j, False)` runs no group sweep). -/
def deselectStep (c : CommandMeta) (i g : Nat) (acc : UIState) (j : Nat) : UIState :=
  if j ≠ i ∧ (specAt c j).group_id = some g ∧ acc.sel j = true then
    removeRow { acc with sel := setSel acc.sel j false } j
  else acc

/-- The mutual-exclusion loop of `_on_toggle_option` when selecting a grouped
spec: every other currently selected spec with the same `group_id` is
deselected (the iteration order over `widget_vars` does not matter for any
property proved here). -/
def deselectOthers (c : CommandMeta) (i : Nat) (g : Nat) (st : UIState) : UIState :=
  (List.range c.nspecs).foldl (deselectStep c i g) st

/-- Writing a spec's selection variable: the variable takes the new value,
then the `_on_toggle_option` trace runs (mutual exclusion on select, then
row ensure/removal). -/
def writeSel (c : CommandMeta) (st : UIState) (i : Nat) (b : Bool) : UIState :=
  let st1 : UIState := { st with sel := setSel st.sel i b }
  let st2 : UIState :=
    if b then
      match (specAt c i).group_id with
      | some g => deselectOthers c i g st1
      | none => st1
    else st1
  if b then ensureRow c st2 i else removeRow st2 i

/-- Point update of the row list for a value edit. -/
def updRows (i : Nat) (v : RowVal) : List (Nat × RowVal) → List (Nat × RowVal)
  | [] => []
  | p :: rest => (if p.1 = i ∧ sameKind p.2 v then (i, v) else p) :: updRows i v rest

/-- Writing a row's value variable (only a variable of the row's own kind
exists to be written). -/
def editRow (st : UIState) (i : Nat) (v : RowVal) : UIState :=
  { st with rows := updRows i v st.rows }

/-- The state `_on_command_change` builds for a fresh command: every spec's
selection variable is created holding `is_required` (no trace fires on
creation), and each pre-selected required spec gets its editor row, in
order. -/
def initState (c : CommandMeta) : UIState :=
  { sel := fun i => isRequired c i,
    rows := (List.range c.arguments.length).map (fun i => (i, initRowVal (specAt c i))) }

/-- States reachable from a freshly built command: user toggles on switch
checkboxes (required checkboxes are disabled), the restore path re-writing a
required spec's variable to true, and value edits. -/
inductive Reach (c : CommandMeta) : UIState → Prop where
  | init : Reach c (initState c)
  | toggle (st : UIState) (i : Nat) (b : Bool) :
      Reach c st → c.arguments.length ≤ i → i < c.nspecs →
      Reach c (writeSel c st i b)
  | restoreReq (st : UIState) (i : Nat) :
      Reach c st → isRequired c i = true →
      Reach c (writeSel c st i true)
  | edit (st : UIState) (i : Nat) (v : RowVal) :
      Reach c st → Reach c (editRow st i v)

/-! ### Global options and the argument builder -/

/-- The six global Tk variables (`cwd_var` … `debug_var`). -/
structure Globals where
  cwd : String
  db : String
  linkly : String
  detail : Int
  quiet : Int
  debug : Int
deriving DecidableEq, Repr

/-- Fresh globals at widget creation. -/
def initGlobals : Globals :=
  { cwd := "", db := "", linkly := "", detail := 0, quiet := 0, debug := 0 }

/-- The arguments one selected row contributes in `_build_args`: a flag emits
its display name when checked; a value is stripped, an empty value emits
nothing; a positional emits the bare value; an `append` option whose value
contains a comma is split, piecewise stripped, empties dropped, and emitted
as repeated `flag value` pairs; otherwise `flag value`. -/
def specChunk (s : OptionSpec) (r : RowVal) : List String :=
  if s.is_flag then
    match r with
    | .flagVal b => if b then [s.display_name] else []
    | .strVal _ => []
  else
    match r with
    | .flagVal _ => []
    | .strVal raw =>
      let val := pyStrip raw
      if val = "" then []
      else if s.is_positional then [val]
      else if s.multiple ∧ pyContains val ',' then
        ((((pySplit val ',').map pyStrip)).filter (fun x => x ≠ "")).foldr
          (fun v acc => s.display_name :: v :: acc) []
      else [s.display_name, val]

/-- The per-row portion of `_build_args`, iterating `self._selected` in
insertion order. -/
def selectedArgs (c : CommandMeta) (st : UIState) : List String :=
  st.rows.foldr (fun p acc => specChunk (specAt c p.1) p.2 ++ acc) []

/-- The head of the vector: `fixed_args` verbatim when truthy (a non-empty
list), else the command name. -/
def buildHead (c : CommandMeta) : List String :=
  match c.fixed_args with
  | some fa => if fa = [] then [c.name] else fa
  | none => [c.name]

/-- The global-option tail of `_build_args`. -/
def globalsArgs (g : Globals) : List String :=
  (if pyStrip g.cwd ≠ "" then ["-C", pyStrip g.cwd] else []) ++
  (if pyStrip g.db ≠ "" then ["--db", pyStrip g.db] else []) ++
  (if pyStrip g.linkly ≠ "" then ["-L", pyStrip g.linkly] else []) ++
  List.replicate g.detail.toNat "-v" ++
  List.replicate g.quiet.toNat "-q" ++
  List.replicate g.debug.toNat "-w"

/-- `TdGuiApp._build_args` for the current command. -/
def buildArgs (c : CommandMeta) (st : UIState) (g : Globals) : List String :=
  buildHead c ++ selectedArgs c st ++ globalsArgs g

/-! ### Preference persistence -/

/-- One `options` record of the saved document: `{selected, flag?, value?}`. -/
structure OptRecord where
  selected : Bool
  flag : Option Bool
  value : Option String
deriving DecidableEq, Repr

/-- A freshly created (empty) record before its fields are written. -/
def defaultRec : OptRecord :=
  { selected := false, flag := none, value := none }

/-- One command's saved state: option records keyed by `spec.key`, plus the
captured terminal output. -/
structure CmdState where
  options : List (String × OptRecord)
  output : Option String
deriving DecidableEq, Repr

def emptyCmdState : CmdState :=
  { options := [], output := none }

/-- The persisted JSON document (`td_gui_prefs.json`). A `some` field is a
key present with the type the loader's `isinstance` check accepts. -/
structure PrefsDoc where
  cwd : Option String
  db : Option String
  linkly : Option String
  detail : Option Int
  quiet : Option Int
  debug : Option Int
  selected_command : Option String
  commands : List (String × CmdState)
deriving DecidableEq, Repr

def emptyDoc : PrefsDoc :=
  { cwd := none, db := none, linkly := none, detail := none, quiet := none,
    debug := none, selected_command := none, commands := [] }

/-- `_load_prefs` on the global variables: each well-typed stored value is
written into its Tk variable verbatim — no clamping. -/
def loadGlobals (doc : PrefsDoc) (g : Globals) : Globals :=
  { cwd := doc.cwd.getD g.cwd,
    db := doc.db.getD g.db,
    linkly := doc.linkly.getD g.linkly,
    detail := doc.detail.getD g.detail,
    quiet := doc.quiet.getD g.quiet,
    debug := doc.debug.getD g.debug }

/-- The flag value `_save_prefs` records for a flag spec:
`bool(wd.get('flag').get()) if wd and wd.get('flag') else False`. -/
def rowFlag (st : UIState) (i : Nat) : Bool :=
  match alookup i st.rows with
  | some (.flagVal b) => b
  | _ => false

/-- The string value `_save_prefs` records for a non-flag spec:
`str(wd.get('value').get()) if wd and wd.get('value') else ''`. -/
def rowStr (st : UIState) (i : Nat) : String :=
  match alookup i st.rows with
  | some (.strVal v) => v
  | _ => ""

/-- One spec of the save loop of `_save_prefs` / `_save_state_for_label`:
`options.setdefault(key, {})` is updated with the live `selected` state and
the row's flag or value. -/
def saveStep (c : CommandMeta) (st : UIState)
    (acc : List (String × OptRecord)) (i : Nat) : List (String × OptRecord) :=
  let sp := specAt c i
  let old := (alookup sp.key acc).getD defaultRec
  let newRec : OptRecord :=
    if sp.is_flag then
      { old with selected := st.sel i, flag := some (rowFlag st i) }
    else
      { old with selected := st.sel i, value := some (rowStr st i) }
  assocSet acc sp.key newRec

/-- The per-spec loop of `_save_prefs` / `_save_state_for_label`, over every
spec of the current command. -/
def saveOptions (c : CommandMeta) (st : UIState)
    (opts : List (String × OptRecord)) : List (String × OptRecord) :=
  (List.range c.nspecs).foldl (saveStep c st) opts

/-- Tk `Text.get("1.0", tk.END)`: the widget's content followed by the
implicit trailing newline the widget always keeps. -/
def textGetAll (buf : String) : String :=
  buf ++ "\n"

/-- `_save_prefs` (with saving not suspended and a current command): merge
the globals (strings stripped) into the previously loaded raw document and
replace the current command's entry with the live option states and the
captured terminal output. -/
def savePrefs (c : CommandMeta) (st : UIState) (outBuf : String) (g : Globals)
    (label : String) (doc : PrefsDoc) : PrefsDoc :=
  let oldState := (alookup label doc.commands).getD emptyCmdState
  let newState : CmdState :=
    { options := saveOptions c st oldState.options,
      output := some (textGetAll outBuf) }
  { doc with
    cwd := some (pyStrip g.cwd),
    db := some (pyStrip g.db),
    linkly := some (pyStrip g.linkly),
    detail := some g.detail,
    quiet := some g.quiet,
    debug := some g.debug,
    selected_command := some label,
    commands := assocSet doc.commands label newState }

/-- `_save_state_for_label`: the same per-command merge without touching the
globals or the selected command. -/
def saveStateForLabel (c : CommandMeta) (st : UIState) (outBuf : String)
    (label : String) (doc : PrefsDoc) : PrefsDoc :=
  let oldState := (alookup label doc.commands).getD emptyCmdState
  let newState : CmdState :=
    { options := saveOptions c st oldState.options,
      output := some (textGetAll outBuf) }
  { doc with commands := assocSet doc.commands label newState }

/-- Python `str(x or '')` on a string. -/
def pyOrEmpty (v : String) : String :=
  if v = "" then "" else v

/-- Restoring one saved option record in `_apply_saved_state_for_current`:
the selection variable is written (forced true for a required spec), firing
the toggle trace; when selected, the row is ensured and its flag or value
variable is set from the record (a missing `flag` defaults to true). -/
def applyOpt (c : CommandMeta) (i : Nat) (opt : OptRecord) (st : UIState) : UIState :=
  let target : Bool := isRequired c i || opt.selected
  let st1 := writeSel c st i target
  if target then
    let st2 := ensureRow c st1 i
    if (specAt c i).is_flag then editRow st2 i (.flagVal (opt.flag.getD true))
    else
      match opt.value with
      | some v => editRow st2 i (.strVal (pyOrEmpty v))
      | none => st2
  else st1

/-- One spec of the `_apply_saved_state_for_current` loop: specs without a
saved record are skipped. -/
def applyStep (c : CommandMeta) (opts : List (String × OptRecord))
    (acc : UIState) (i : Nat) : UIState :=
  match alookup (specAt c i).key opts with
  | none => acc
  | some opt => applyOpt c i opt acc

/-- `_apply_saved_state_for_current`: restore every spec's saved state for
`label`, then restore the saved terminal output verbatim into the (cleared)
output widget. -/
def applySaved (c : CommandMeta) (doc : PrefsDoc) (label : String)
    (st : UIState) (outBuf : String) : UIState × String :=
  let cstate := (alookup label doc.commands).getD emptyCmdState
  let st2 := (List.range c.nspecs).foldl (applyStep c cstate.options) st
  let outBuf2 :=
    match cstate.output with
    | some out => out
    | none => outBuf
  (st2, outBuf2)

/-! ### Well-formedness of a command's declarations -/

/-- Spec keys are pairwise distinct within one command (the stated catalog
invariant; argparse enforces distinct `dest`s). -/
def KeysDistinct (c : CommandMeta) : Prop :=
  ∀ i < c.nspecs, ∀ j < c.nspecs, (specAt c i).key = (specAt c j).key → i = j

/-- Required (positional) specs carry no mutual-exclusion group. -/
def ReqUngrouped (c : CommandMeta) : Prop :=
  ∀ i < c.nspecs, isRequired c i = true → (specAt c i).group_id = none

/-- At most one spec of any mutual-exclusion group is selected. -/
def AtMostOneInGroup (c : CommandMeta) (st : UIState) : Prop :=
  ∀ i < c.nspecs, ∀ j < c.nspecs,
    st.sel i = true → st.sel j = true →
    (specAt c i).group_id.isSome →
    (specAt c i).group_id = (specAt c j).group_id → i = j

/-! ### Example commands (used by witnesses and counterexamples) -/

/-- A positional declaration, as the `run` command's `origin` argument. -/
def posSpec : OptionSpec :=
  { args := ["origin"], dest := none, action := none, dflt := none,
    helpText := "starting system", choices := none, group_id := none }

def flagSpecA : OptionSpec :=
  { args := ["--alpha", "-a"], dest := none, action := some "store_true",
    dflt := none, helpText := "", choices := none, group_id := some 7 }

def flagSpecB : OptionSpec :=
  { args := ["--beta"], dest := none, action := some "store_true",
    dflt := none, helpText := "", choices := none, group_id := some 7 }

def multiSpecC : OptionSpec :=
  { args := ["--via"], dest := none, action := some "append",
    dflt := none, helpText := "", choices := none, group_id := none }

def valSpecD : OptionSpec :=
  { args := ["--jumps"], dest := some "maxJumpsPer", action := none,
    dflt := some "2", helpText := "", choices := none, group_id := none }

def exCmd : CommandMeta :=
  { name := "run", helpText := "trade run", arguments := [posSpec],
    switches := [flagSpecA, flagSpecB, multiSpecC, valSpecD], fixed_args := none }

/-- The synthetic composite command the catalog injects. -/
def exCmdFixed : CommandMeta :=
  { name := "import", helpText := "eddblink rebuild", arguments := [], switches := [],
    fixed_args := some ["import", "-P", "eddblink", "-O", "clean,all,skipvend,force"] }

/-! ### Association-list lemmas -/

theorem alookup_cons {α β : Type} [DecidableEq α] (k : α) (p : α × β) (l : List (α × β)) :
    alookup k (p :: l) = if p.1 = k then some p.2 else alookup k l := rfl

theorem eraseKey_cons {α β : Type} [DecidableEq α] (i : α) (p : α × β) (l : List (α × β)) :
    eraseKey i (p :: l) = if p.1 = i then eraseKey i l else p :: eraseKey i l := rfl

theorem updKey_cons {α β : Type} [DecidableEq α] (k : α) (v : β) (p : α × β)
    (l : List (α × β)) :
    updKey k v (p :: l) = (if p.1 = k then (k, v) else p) :: updKey k v l := rfl

theorem updRows_cons (i : Nat) (v : RowVal) (p : Nat × RowVal) (l : List (Nat × RowVal)) :
    updRows i v (p :: l) =
      (if p.1 = i ∧ sameKind p.2 v = true then (i, v) else p) :: updRows i v l := rfl

theorem alookup_eq_none_iff {α β : Type} [DecidableEq α] (k : α) (l : List (α × β)) :
    alookup k l = none ↔ ∀ p ∈ l, p.1 ≠ k := by
  induction l with
  | nil => simp [alookup]
  | cons p rest ih =>
    by_cases h : p.1 = k
    · simp [alookup_cons, h]
    · simp [alookup_cons, h, ih]

theorem alookup_append_one_self {α β : Type} [DecidableEq α] (l : List (α × β))
    (k : α) (v : β) (h : alookup k l = none) :
    alookup k (l ++ [(k, v)]) = some v := by
  induction l with
  | nil => simp [alookup]
  | cons p rest ih =>
    rw [alookup_cons] at h
    by_cases hp : p.1 = k
    · rw [if_pos hp] at h
      exact absurd h (by simp)
    · rw [if_neg hp] at h
      rw [List.cons_append, alookup_cons, if_neg hp]
      exact ih h

theorem alookup_append_one_ne {α β : Type} [DecidableEq α] (l : List (α × β))
    (k j : α) (v : β) (h : j ≠ k) :
    alookup j (l ++ [(k, v)]) = alookup j l := by
  induction l with
  | nil =>
    have hkj : ¬ (k = j) := fun hh => h hh.symm
    simp [alookup, hkj]
  | cons p rest ih =>
    rw [List.cons_append, alookup_cons, alookup_cons]
    by_cases hp : p.1 = j
    · rw [if_pos hp, if_pos hp]
    · rw [if_neg hp, if_neg hp]
      exact ih

theorem alookup_eraseKey_self {α β : Type} [DecidableEq α] (l : List (α × β)) (i : α) :
    alookup i (eraseKey i l) = none := by
  induction l with
  | nil => simp [eraseKey, alookup]
  | cons p rest ih =>
    rw [eraseKey_cons]
    by_cases hp : p.1 = i
    · rw [if_pos hp]
      exact ih
    · rw [if_neg hp, alookup_cons, if_neg hp]
      exact ih

theorem alookup_eraseKey_ne {α β : Type} [DecidableEq α] (l : List (α × β)) (i j : α)
    (h : j ≠ i) :
    alookup j (eraseKey i l) = alookup j l := by
  induction l with
  | nil => simp [eraseKey]
  | cons p rest ih =>
    rw [eraseKey_cons, alookup_cons]
    by_cases hp : p.1 = i
    · have hpj : ¬ (p.1 = j) := by
        rw [hp]
        exact fun hh => h hh.symm
      rw [if_pos hp, if_neg hpj]
      exact ih
    · rw [if_neg hp, alookup_cons]
      by_cases hpj : p.1 = j
      · rw [if_pos hpj, if_pos hpj]
      · rw [if_neg hpj, if_neg hpj]
        exact ih

theorem alookup_updKey_self {α β : Type} [DecidableEq α] (m : List (α × β))
    (k : α) (v : β) (h : (alookup k m).isSome) :
    alookup k (updKey k v m) = some v := by
  induction m with
  | nil => simp [alookup] at h
  | cons p rest ih =>
    rw [alookup_cons] at h
    rw [updKey_cons]
    by_cases hp : p.1 = k
    · rw [if_pos hp, alookup_cons]
      simp
    · rw [if_neg hp] at h
      rw [if_neg hp, alookup_cons, if_neg hp]
      exact ih h

theorem alookup_updKey_ne {α β : Type} [DecidableEq α] (m : List (α × β))
    (k j : α) (v : β) (h : j ≠ k) :
    alookup j (updKey k v m) = alookup j m := by
  induction m with
  | nil => simp [updKey]
  | cons p rest ih =>
    rw [updKey_cons, alookup_cons]
    by_cases hp : p.1 = k
    · have hkj : ¬ (k = j) := fun hh => h hh.symm
      have hpj : ¬ (p.1 = j) := by
        rw [hp]
        exact hkj
      rw [if_pos hp, alookup_cons, if_neg hkj, if_neg hpj]
      exact ih
    · rw [if_neg hp, alookup_cons]
      by_cases hpj : p.1 = j
      · rw [if_pos hpj, if_pos hpj]
      · rw [if_neg hpj, if_neg hpj]
        exact ih

theorem alookup_assocSet_self {α β : Type} [DecidableEq α] (m : List (α × β))
    (k : α) (v : β) :
    alookup k (assocSet m k v) = some v := by
  unfold assocSet
  by_cases h : (alookup k m).isSome
  · rw [if_pos h]
    exact alookup_updKey_self m k v h
  · rw [if_neg h]
    refine alookup_append_one_self m k v ?_
    cases hm : alookup k m
    · rfl
    · rw [hm] at h
      simp at h

theorem alookup_assocSet_ne {α β : Type} [DecidableEq α] (m : List (α × β))
    (k j : α) (v : β) (h : j ≠ k) :
    alookup j (assocSet m k v) = alookup j m := by
  unfold assocSet
  by_cases hs : (alookup k m).isSome
  · rw [if_pos hs]
    exact alookup_updKey_ne m k j v h
  · rw [if_neg hs]
    exact alookup_append_one_ne m k j v h

theorem alookup_updRows_ne (l : List (Nat × RowVal)) (i j : Nat) (v : RowVal)
    (h : j ≠ i) :
    alookup j (updRows i v l) = alookup j l := by
  induction l with
  | nil => simp [updRows]
  | cons p rest ih =>
    rw [updRows_cons, alookup_cons]
    by_cases hc : p.1 = i ∧ sameKind p.2 v = true
    · have hij : ¬ (i = j) := fun hh => h hh.symm
      have hpj : ¬ (p.1 = j) := by
        rw [hc.1]
        exact hij
      rw [if_pos hc, alookup_cons]
      show (if i = j then some v else alookup j (updRows i v rest)) = _
      rw [if_neg hij, if_neg hpj]
      exact ih
    · rw [if_neg hc, alookup_cons]
      by_cases hpj : p.1 = j
      · rw [if_pos hpj, if_pos hpj]
      · rw [if_neg hpj, if_neg hpj]
        exact ih

theorem alookup_updRows_self (l : List (Nat × RowVal)) (i : Nat) (v r : RowVal)
    (h : alookup i l = some r) (hk : sameKind r v = true) :
    alookup i (updRows i v l) = some v := by
  induction l with
  | nil => simp [alookup] at h
  | cons p rest ih =>
    rw [alookup_cons] at h
    rw [updRows_cons]
    by_cases hp : p.1 = i
    · rw [if_pos hp] at h
      have hr : p.2 = r := by simpa using h
      have hc : p.1 = i ∧ sameKind p.2 v = true := ⟨hp, by rw [hr]; exact hk⟩
      rw [if_pos hc, alookup_cons]
      simp
    · rw [if_neg hp] at h
      have hc : ¬ (p.1 = i ∧ sameKind p.2 v = true) := fun hh => hp hh.1
      rw [if_neg hc, alookup_cons, if_neg hp]
      exact ih h

/-! ### Claim C7 -/

/-- Claim C7: the built vector always begins with exactly one head — the
literal `fixed_args` sequence when it is set (and, as in the catalog,
non-empty), otherwise the single token `spec.name`; the rest of the vector is
appended after that head. -/
theorem claim_C7_head (c : CommandMeta) (st : UIState) (g : Globals) :
    buildArgs c st g = buildHead c ++ (selectedArgs c st ++ globalsArgs g) ∧
    (∀ fa, c.fixed_args = some fa → fa ≠ [] → buildHead c = fa) ∧
    (c.fixed_args = none → buildHead c = [c.name]) := by
  refine ⟨by simp [buildArgs], ?_, ?_⟩
  · intro fa hfa hne
    simp [buildHead, hfa, hne]
  · intro h
    simp [buildHead, h]

theorem claim_C7_head_witness :
    buildArgs exCmdFixed (initState exCmdFixed) initGlobals =
      buildHead exCmdFixed ++ (selectedArgs exCmdFixed (initState exCmdFixed) ++ globalsArgs initGlobals) ∧
    buildHead exCmdFixed = ["import", "-P", "eddblink", "-O", "clean,all,skipvend,force"] ∧
    buildHead exCmd = ["run"] :=
  ⟨(claim_C7_head exCmdFixed (initState exCmdFixed) initGlobals).1,
   (claim_C7_head exCmdFixed (initState exCmdFixed) initGlobals).2.1 _ rfl (by decide),
   (claim_C7_head exCmd (initState exCmd) initGlobals).2.2 rfl⟩

/-! ### Claim C8 -/

theorem foldr_pairs_eq_join (a : String) (l : List String) :
    l.foldr (fun v acc => a :: v :: acc) [] = (l.map (fun v => [a, v])).flatten := by
  induction l with
  | nil => simp
  | cons x rest ih => simp [ih]

/-- Claim C8: a selected `Multi` (append) spec with a comma in its stripped
value expands to `flag piece` pairs over the comma-split, piecewise-stripped,
non-empty pieces, in order; with no comma it contributes exactly
`[flag, value]`; a blank value contributes nothing. The two concrete
assemblies of the spec are included. -/
theorem claim_C8_multi (s : OptionSpec) (raw : String)
    (hflag : s.is_flag = false) (hmul : s.multiple = true)
    (hpos : s.is_positional = false) :
    (pyStrip raw = "" → specChunk s (.strVal raw) = []) ∧
    (pyContains (pyStrip raw) ',' = true →
      specChunk s (.strVal raw) =
        ((((pySplit (pyStrip raw) ',').map pyStrip).filter (fun x => x ≠ "")).map
          (fun piece => [s.display_name, piece])).flatten) ∧
    (pyStrip raw ≠ "" → pyContains (pyStrip raw) ',' = false →
      specChunk s (.strVal raw) = [s.display_name, pyStrip raw]) ∧
    specChunk multiSpecC (.strVal "a, b ,c") = ["--via", "a", "--via", "b", "--via", "c"] ∧
    specChunk multiSpecC (.strVal "a") = ["--via", "a"] := by
  refine ⟨?_, ?_, ?_, by decide, by decide⟩
  · intro h
    simp [specChunk, hflag, h]
  · intro h
    have hne : ¬ (pyStrip raw = "") := by
      intro hh
      rw [hh] at h
      simp [pyContains] at h
    simp [specChunk, hflag, hmul, hpos, hne, h, foldr_pairs_eq_join]
  · intro hne hnc
    simp [specChunk, hflag, hmul, hpos, hne, hnc]

theorem claim_C8_multi_witness :
    specChunk multiSpecC (.strVal "a, b ,c") = ["--via", "a", "--via", "b", "--via", "c"] ∧
    specChunk multiSpecC (.strVal "a") = ["--via", "a"] ∧
    specChunk multiSpecC (.strVal "   ") = [] :=
  ⟨(claim_C8_multi multiSpecC "a, b ,c" (by decide) (by decide) (by decide)).2.2.2.1,
   (claim_C8_multi multiSpecC "a" (by decide) (by decide) (by decide)).2.2.2.2,
   (claim_C8_multi multiSpecC "   " (by decide) (by decide) (by decide)).1 (by decide)⟩

/-! ### Claim C9 -/

/-- Claim C9: every built vector ends with the fixed global suffix — the
working-directory, database-path and link-url pairs, each present only when
the stripped global is non-empty, followed by the verbosity token repeated
`detail` times, the quiet token `quiet` times and the debug token `debug`
times, each a standalone token. -/
theorem claim_C9_globals_suffix (c : CommandMeta) (st : UIState) (g : Globals)
    (dv qv wv : Nat) (hd : g.detail = (dv : Int)) (hq : g.quiet = (qv : Int))
    (hw : g.debug = (wv : Int)) :
    buildArgs c st g = (buildHead c ++ selectedArgs c st) ++
      ((if pyStrip g.cwd = "" then [] else ["-C", pyStrip g.cwd]) ++
       (if pyStrip g.db = "" then [] else ["--db", pyStrip g.db]) ++
       (if pyStrip g.linkly = "" then [] else ["-L", pyStrip g.linkly]) ++
       (List.replicate dv "-v" ++ List.replicate qv "-q" ++ List.replicate wv "-w")) := by
  have hdt : g.detail.toNat = dv := by rw [hd]; simp
  have hqt : g.quiet.toNat = qv := by rw [hq]; simp
  have hwt : g.debug.toNat = wv := by rw [hw]; simp
  by_cases h1 : pyStrip g.cwd = "" <;> by_cases h2 : pyStrip g.db = "" <;>
    by_cases h3 : pyStrip g.linkly = "" <;>
    simp [buildArgs, globalsArgs, h1, h2, h3, hdt, hqt, hwt]

theorem claim_C9_globals_suffix_witness :
    buildArgs exCmd (initState exCmd)
        { cwd := " /work ", db := "", linkly := "", detail := 2, quiet := 0, debug := 1 } =
      (buildHead exCmd ++ selectedArgs exCmd (initState exCmd)) ++
        (["-C", "/work"] ++ [] ++ [] ++
          (List.replicate 2 "-v" ++ List.replicate 0 "-q" ++ List.replicate 1 "-w")) := by
  rw [claim_C9_globals_suffix exCmd (initState exCmd)
    { cwd := " /work ", db := "", linkly := "", detail := 2, quiet := 0, debug := 1 }
    2 0 1 rfl rfl rfl]
  decide

/-! ### Claim C2 -/

/-- A preference document whose stored detail counter is out of range. -/
def exDocDetail6 : PrefsDoc :=
  { cwd := none, db := none, linkly := none, detail := some 6, quiet := none,
    debug := none, selected_command := none, commands := [] }

/-- Claim C2 counterexample: restoring a preferences file that stores
`detail = 6` produces a state whose verbosity counter is 6, outside `[0,5]`,
and the built global suffix then carries six verbosity tokens. -/
theorem claim_C2_cex :
    (loadGlobals exDocDetail6 initGlobals).detail = 6 ∧
    ¬ ((loadGlobals exDocDetail6 initGlobals).detail ≤ 5) ∧
    List.count "-v" (globalsArgs (loadGlobals exDocDetail6 initGlobals)) = 6 := by
  refine ⟨by decide, by decide, ?_⟩
  decide

/-- Claim C2 as amended: `_load_prefs` copies any stored integer verbatim
(no clamp), so the bound holds exactly for states whose counters lie in
`[0,5]` — as the spinbox enforces for UI edits — and for those the vector
carries at most five verbosity, quiet and debug tokens each. -/
theorem claim_C2_amended (c : CommandMeta) (st : UIState) (g : Globals)
    (h1 : 0 ≤ g.detail) (h2 : g.detail ≤ 5) (h3 : 0 ≤ g.quiet) (h4 : g.quiet ≤ 5)
    (h5 : 0 ≤ g.debug) (h6 : g.debug ≤ 5) :
    buildArgs c st g = buildHead c ++ selectedArgs c st ++
      ((if pyStrip g.cwd ≠ "" then ["-C", pyStrip g.cwd] else []) ++
       (if pyStrip g.db ≠ "" then ["--db", pyStrip g.db] else []) ++
       (if pyStrip g.linkly ≠ "" then ["-L", pyStrip g.linkly] else []) ++
       List.replicate g.detail.toNat "-v" ++ List.replicate g.quiet.toNat "-q" ++
       List.replicate g.debug.toNat "-w") ∧
    g.detail.toNat ≤ 5 ∧ g.quiet.toNat ≤ 5 ∧ g.debug.toNat ≤ 5 := by
  refine ⟨by simp [buildArgs, globalsArgs], ?_, ?_, ?_⟩ <;> omega

theorem claim_C2_amended_witness :
    (0 : Int) ≤ 3 ∧ (3 : Int) ≤ 5 ∧
    (buildArgs exCmd (initState exCmd)
        { cwd := "", db := "", linkly := "", detail := 3, quiet := 0, debug := 0 }).count "-v" ≤ 5 := by
  have h := claim_C2_amended exCmd (initState exCmd)
    { cwd := "", db := "", linkly := "", detail := 3, quiet := 0, debug := 0 }
    (by decide) (by decide) (by decide) (by decide) (by decide) (by decide)
  refine ⟨by decide, by decide, ?_⟩
  rw [h.1]
  decide

/-! ### Claim C10 -/

/-- Claim C10: writing a spec's selection variable to false removes exactly
that spec's row and selection — the mutual-exclusion sweep runs only on
selection, so every other spec's selection state and value entry are
untouched. -/
theorem claim_C10_deselect_frame (c : CommandMeta) (st : UIState) (i : Nat) :
    (writeSel c st i false).sel i = false ∧
    alookup i (writeSel c st i false).rows = none ∧
    (∀ j, j ≠ i → (writeSel c st i false).sel j = st.sel j ∧
      alookup j (writeSel c st i false).rows = alookup j st.rows) := by
  have hw : writeSel c st i false = removeRow { st with sel := setSel st.sel i false } i := by
    simp [writeSel]
  refine ⟨?_, ?_, ?_⟩
  · rw [hw]
    simp [removeRow, setSel]
  · rw [hw]
    exact alookup_eraseKey_self st.rows i
  · intro j hj
    rw [hw]
    constructor
    · simp [removeRow, setSel, hj]
    · exact alookup_eraseKey_ne st.rows i j hj

theorem claim_C10_deselect_frame_witness :
    (writeSel exCmd (initState exCmd) 1 false).sel 0 = (initState exCmd).sel 0 ∧
    alookup 0 (writeSel exCmd (initState exCmd) 1 false).rows = alookup 0 (initState exCmd).rows ∧
    alookup 1 (writeSel exCmd (initState exCmd) 1 false).rows = none :=
  ⟨((claim_C10_deselect_frame exCmd (initState exCmd) 1).2.2 0 (by decide)).1,
   ((claim_C10_deselect_frame exCmd (initState exCmd) 1).2.2 0 (by decide)).2,
   (claim_C10_deselect_frame exCmd (initState exCmd) 1).2.1⟩

/-! ### Claim C6 -/

/-- Claim C6: saving state for command X merges into the previously loaded
document and leaves the entry of any other command Y untouched, through both
`_save_prefs` and `_save_state_for_label`. -/
theorem claim_C6_save_frame (c : CommandMeta) (st : UIState) (outBuf : String)
    (g : Globals) (labelX : String) (doc : PrefsDoc) (labelY : String)
    (h : labelY ≠ labelX) :
    alookup labelY (savePrefs c st outBuf g labelX doc).commands =
      alookup labelY doc.commands ∧
    alookup labelY (saveStateForLabel c st outBuf labelX doc).commands =
      alookup labelY doc.commands := by
  constructor
  · show alookup labelY (assocSet doc.commands labelX _) = alookup labelY doc.commands
    exact alookup_assocSet_ne doc.commands labelX labelY _ h
  · show alookup labelY (assocSet doc.commands labelX _) = alookup labelY doc.commands
    exact alookup_assocSet_ne doc.commands labelX labelY _ h

theorem claim_C6_save_frame_witness :
    alookup "buy" (savePrefs exCmd (initState exCmd) "out" initGlobals "run" emptyDoc).commands =
      alookup "buy" emptyDoc.commands :=
  (claim_C6_save_frame exCmd (initState exCmd) "out" initGlobals "run" emptyDoc "buy"
    (by decide)).1

/-! ### Pointwise characterisation of the state operations -/

theorem setSel_self (f : Nat → Bool) (i : Nat) (b : Bool) : setSel f i b i = b := by
  simp [setSel]

theorem setSel_ne (f : Nat → Bool) (i : Nat) (b : Bool) (k : Nat) (h : k ≠ i) :
    setSel f i b k = f k := by
  simp [setSel, h]

theorem sameKind_self (v : RowVal) : sameKind v v = true := by
  cases v <;> rfl

theorem sameKind_symm (a b : RowVal) : sameKind a b = sameKind b a := by
  cases a <;> cases b <;> rfl

theorem sameKind_trans (a b c : RowVal) (h1 : sameKind a b = true)
    (h2 : sameKind b c = true) : sameKind a c = true := by
  cases a <;> cases b <;> cases c <;> simp_all [sameKind]

theorem mem_eraseKey {α β : Type} [DecidableEq α] (l : List (α × β)) (i : α)
    (p : α × β) (h : p ∈ eraseKey i l) : p ∈ l ∧ p.1 ≠ i := by
  induction l with
  | nil => simp [eraseKey] at h
  | cons q rest ih =>
    rw [eraseKey_cons] at h
    by_cases hq : q.1 = i
    · rw [if_pos hq] at h
      have hrec := ih h
      exact ⟨List.mem_cons_of_mem _ hrec.1, hrec.2⟩
    · rw [if_neg hq] at h
      rcases List.mem_cons.mp h with h1 | h2
      · subst h1
        exact ⟨List.mem_cons_self _ _, hq⟩
      · have hrec := ih h2
        exact ⟨List.mem_cons_of_mem _ hrec.1, hrec.2⟩

theorem mem_updRows (i : Nat) (v : RowVal) (l : List (Nat × RowVal)) (p : Nat × RowVal)
    (h : p ∈ updRows i v l) :
    p ∈ l ∨ (p.1 = i ∧ p.2 = v ∧ ∃ q ∈ l, q.1 = i ∧ sameKind q.2 v = true) := by
  induction l with
  | nil => simp [updRows] at h
  | cons q rest ih =>
    rw [updRows_cons] at h
    rcases List.mem_cons.mp h with h1 | h2
    · by_cases hc : q.1 = i ∧ sameKind q.2 v = true
      · rw [if_pos hc] at h1
        subst h1
        exact Or.inr ⟨rfl, rfl, q, List.mem_cons_self _ _, hc⟩
      · rw [if_neg hc] at h1
        subst h1
        exact Or.inl (List.mem_cons_self _ _)
    · rcases ih h2 with h3 | ⟨h3, h4, q2, hq2, hq3⟩
      · exact Or.inl (List.mem_cons_of_mem _ h3)
      · exact Or.inr ⟨h3, h4, q2, List.mem_cons_of_mem _ hq2, hq3⟩

theorem alookup_updRows_at (l : List (Nat × RowVal)) (i : Nat) (v : RowVal) :
    alookup i (updRows i v l) =
      (alookup i l).map (fun r => if sameKind r v = true then v else r) := by
  induction l with
  | nil => simp [updRows, alookup]
  | cons p rest ih =>
    rw [updRows_cons]
    by_cases hp : p.1 = i
    · by_cases hk : sameKind p.2 v = true
      · rw [if_pos (And.intro hp hk), alookup_cons, alookup_cons, if_pos hp]
        show (if (i : Nat) = i then some v else alookup i (updRows i v rest)) = _
        rw [if_pos rfl]
        simp [hk]
      · have hc : ¬ (p.1 = i ∧ sameKind p.2 v = true) := fun hh => hk hh.2
        rw [if_neg hc, alookup_cons, alookup_cons, if_pos hp, if_pos hp]
        simp [hk]
    · have hc : ¬ (p.1 = i ∧ sameKind p.2 v = true) := fun hh => hp hh.1
      rw [if_neg hc, alookup_cons, alookup_cons, if_neg hp, if_neg hp]
      exact ih

theorem ensureRow_sel (c : CommandMeta) (st : UIState) (i : Nat) :
    (ensureRow c st i).sel = st.sel := by
  unfold ensureRow
  split <;> rfl

theorem ensureRow_rows_lookup (c : CommandMeta) (st : UIState) (i k : Nat) :
    alookup k (ensureRow c st i).rows =
      if k = i then some ((alookup i st.rows).getD (initRowVal (specAt c i)))
      else alookup k st.rows := by
  unfold ensureRow
  by_cases hs : (alookup i st.rows).isSome
  · rw [if_pos hs]
    by_cases hk : k = i
    · subst hk
      cases hm : alookup k st.rows
      · rw [hm] at hs
        simp at hs
      · simp [hm]
    · rw [if_neg hk]
  · rw [if_neg hs]
    have hnone : alookup i st.rows = none := by
      cases hm : alookup i st.rows
      · rfl
      · rw [hm] at hs
        simp at hs
    by_cases hk : k = i
    · subst hk
      rw [if_pos rfl, alookup_append_one_self st.rows k _ hnone, hnone]
      rfl
    · rw [if_neg hk, alookup_append_one_ne st.rows i k _ hk]

theorem mem_ensureRow (c : CommandMeta) (st : UIState) (i : Nat) (p : Nat × RowVal)
    (h : p ∈ (ensureRow c st i).rows) :
    p ∈ st.rows ∨ p = (i, initRowVal (specAt c i)) := by
  unfold ensureRow at h
  by_cases hs : (alookup i st.rows).isSome
  · rw [if_pos hs] at h
    exact Or.inl h
  · rw [if_neg hs] at h
    rcases List.mem_append.mp h with h1 | h2
    · exact Or.inl h1
    · simp at h2
      exact Or.inr (by cases p; simp at h2; simp [h2])

theorem deselect_fold_sel (c : CommandMeta) (i g : Nat) (L : List Nat) :
    ∀ (st : UIState) (k : Nat),
      (L.foldl (deselectStep c i g) st).sel k =
        if k ∈ L ∧ k ≠ i ∧ (specAt c k).group_id = some g then false else st.sel k := by
  induction L with
  | nil =>
    intro st k
    simp
  | cons a L2 ih =>
    intro st k
    rw [List.foldl_cons, ih]
    by_cases hP : k ≠ i ∧ (specAt c k).group_id = some g
    · by_cases hkL : k ∈ L2
      · rw [if_pos ⟨hkL, hP⟩, if_pos ⟨List.mem_cons_of_mem _ hkL, hP⟩]
      · rw [if_neg (fun hh => hkL hh.1)]
        by_cases hka : k = a
        · subst hka
          rw [if_pos ⟨List.mem_cons_self _ _, hP⟩]
          unfold deselectStep
          by_cases hc : k ≠ i ∧ (specAt c k).group_id = some g ∧ st.sel k = true
          · rw [if_pos hc]
            show setSel st.sel k false k = false
            exact setSel_self _ _ _
          · rw [if_neg hc]
            rcases Bool.eq_false_or_eq_true (st.sel k) with h1 | h0
            · exact absurd ⟨hP.1, hP.2, h1⟩ hc
            · exact h0
        · have hno : ¬ (k ∈ a :: L2 ∧ k ≠ i ∧ (specAt c k).group_id = some g) := by
            intro hh
            rcases List.mem_cons.mp hh.1 with h1 | h2
            · exact hka h1
            · exact hkL h2
          rw [if_neg hno]
          unfold deselectStep
          by_cases hc : a ≠ i ∧ (specAt c a).group_id = some g ∧ st.sel a = true
          · rw [if_pos hc]
            show setSel st.sel a false k = st.sel k
            exact setSel_ne _ _ _ _ hka
          · rw [if_neg hc]
    · rw [if_neg (fun hh => hP hh.2), if_neg (fun hh => hP hh.2)]
      unfold deselectStep
      by_cases hc : a ≠ i ∧ (specAt c a).group_id = some g ∧ st.sel a = true
      · rw [if_pos hc]
        have hka : k ≠ a := by
          intro hh
          subst hh
          exact hP ⟨hc.1, hc.2.1⟩
        show setSel st.sel a false k = st.sel k
        exact setSel_ne _ _ _ _ hka
      · rw [if_neg hc]

theorem deselect_fold_rows_subset (c : CommandMeta) (i g : Nat) (L : List Nat) :
    ∀ (st : UIState) (p : Nat × RowVal),
      p ∈ (L.foldl (deselectStep c i g) st).rows → p ∈ st.rows := by
  induction L with
  | nil =>
    intro st p h
    simpa using h
  | cons a L2 ih =>
    intro st p h
    rw [List.foldl_cons] at h
    have h2 := ih _ p h
    unfold deselectStep at h2
    by_cases hc : a ≠ i ∧ (specAt c a).group_id = some g ∧ st.sel a = true
    · rw [if_pos hc] at h2
      exact (mem_eraseKey _ _ _ h2).1
    · rw [if_neg hc] at h2
      exact h2

theorem deselect_fold_rows (c : CommandMeta) (i g : Nat) (L : List Nat) :
    ∀ (st : UIState), (∀ p ∈ st.rows, st.sel p.1 = true) → ∀ (k : Nat),
      alookup k (L.foldl (deselectStep c i g) st).rows =
        if k ∈ L ∧ k ≠ i ∧ (specAt c k).group_id = some g then none
        else alookup k st.rows := by
  induction L with
  | nil =>
    intro st hrs k
    simp
  | cons a L2 ih =>
    intro st hrs k
    rw [List.foldl_cons]
    have hrs2 : ∀ p ∈ (deselectStep c i g st a).rows, (deselectStep c i g st a).sel p.1 = true := by
      intro p hp
      unfold deselectStep at hp ⊢
      by_cases hc : a ≠ i ∧ (specAt c a).group_id = some g ∧ st.sel a = true
      · rw [if_pos hc] at hp ⊢
        have hm := mem_eraseKey _ _ _ hp
        show setSel st.sel a false p.1 = true
        rw [setSel_ne _ _ _ _ hm.2]
        exact hrs p hm.1
      · rw [if_neg hc] at hp ⊢
        exact hrs p hp
    rw [ih _ hrs2 k]
    by_cases hP : k ≠ i ∧ (specAt c k).group_id = some g
    · by_cases hkL : k ∈ L2
      · rw [if_pos ⟨hkL, hP⟩, if_pos ⟨List.mem_cons_of_mem _ hkL, hP⟩]
      · rw [if_neg (fun hh => hkL hh.1)]
        by_cases hka : k = a
        · subst hka
          rw [if_pos ⟨List.mem_cons_self _ _, hP⟩]
          unfold deselectStep
          by_cases hc : k ≠ i ∧ (specAt c k).group_id = some g ∧ st.sel k = true
          · rw [if_pos hc]
            exact alookup_eraseKey_self _ _
          · rw [if_neg hc]
            have hsel : st.sel k = false := by
              rcases Bool.eq_false_or_eq_true (st.sel k) with h1 | h0
              · exact absurd ⟨hP.1, hP.2, h1⟩ hc
              · exact h0
            rw [alookup_eq_none_iff]
            intro p hp hpk
            have := hrs p hp
            rw [hpk, hsel] at this
            exact Bool.false_ne_true this
        · have hno : ¬ (k ∈ a :: L2 ∧ k ≠ i ∧ (specAt c k).group_id = some g) := by
            intro hh
            rcases List.mem_cons.mp hh.1 with h1 | h2
            · exact hka h1
            · exact hkL h2
          rw [if_neg hno]
          unfold deselectStep
          by_cases hc : a ≠ i ∧ (specAt c a).group_id = some g ∧ st.sel a = true
          · rw [if_pos hc]
            exact alookup_eraseKey_ne _ _ _ hka
          · rw [if_neg hc]
    · rw [if_neg (fun hh => hP hh.2), if_neg (fun hh => hP hh.2)]
      unfold deselectStep
      by_cases hc : a ≠ i ∧ (specAt c a).group_id = some g ∧ st.sel a = true
      · rw [if_pos hc]
        have hka : k ≠ a := by
          intro hh
          subst hh
          exact hP ⟨hc.1, hc.2.1⟩
        exact alookup_eraseKey_ne _ _ _ hka
      · rw [if_neg hc]

theorem writeSel_false_sel (c : CommandMeta) (st : UIState) (i k : Nat) :
    (writeSel c st i false).sel k = if k = i then false else st.sel k := by
  show (removeRow { st with sel := setSel st.sel i false } i).sel k = _
  by_cases hk : k = i
  · subst hk
    rw [if_pos rfl]
    exact setSel_self _ _ _
  · rw [if_neg hk]
    exact setSel_ne _ _ _ _ hk

theorem writeSel_false_rows (c : CommandMeta) (st : UIState) (i k : Nat) :
    alookup k (writeSel c st i false).rows = if k = i then none else alookup k st.rows := by
  show alookup k (eraseKey i st.rows) = _
  by_cases hk : k = i
  · subst hk
    rw [if_pos rfl]
    exact alookup_eraseKey_self _ _
  · rw [if_neg hk]
    exact alookup_eraseKey_ne _ _ _ hk

theorem mem_writeSel_false_rows (c : CommandMeta) (st : UIState) (i : Nat)
    (p : Nat × RowVal) (h : p ∈ (writeSel c st i false).rows) : p ∈ st.rows ∧ p.1 ≠ i :=
  mem_eraseKey _ _ _ h

theorem writeSel_true_sel_nog (c : CommandMeta) (st : UIState) (i : Nat)
    (hg : (specAt c i).group_id = none) (k : Nat) :
    (writeSel c st i true).sel k = setSel st.sel i true k := by
  simp only [writeSel, hg, if_true]
  rw [ensureRow_sel]

theorem writeSel_true_sel_grp (c : CommandMeta) (st : UIState) (i g : Nat)
    (hg : (specAt c i).group_id = some g) (k : Nat) :
    (writeSel c st i true).sel k =
      if k < c.nspecs ∧ k ≠ i ∧ (specAt c k).group_id = some g then false
      else setSel st.sel i true k := by
  simp only [writeSel, hg, if_true]
  rw [ensureRow_sel]
  show (deselectOthers c i g { st with sel := setSel st.sel i true }).sel k = _
  unfold deselectOthers
  rw [deselect_fold_sel]
  simp only [List.mem_range]

theorem writeSel_true_rows_nog (c : CommandMeta) (st : UIState) (i : Nat)
    (hg : (specAt c i).group_id = none) (k : Nat) :
    alookup k (writeSel c st i true).rows =
      if k = i then some ((alookup i st.rows).getD (initRowVal (specAt c i)))
      else alookup k st.rows := by
  simp only [writeSel, hg, if_true]
  rw [ensureRow_rows_lookup]

theorem writeSel_true_rows_grp (c : CommandMeta) (st : UIState) (i g : Nat)
    (hg : (specAt c i).group_id = some g)
    (hrs : ∀ p ∈ st.rows, st.sel p.1 = true) (k : Nat) :
    alookup k (writeSel c st i true).rows =
      if k = i then some ((alookup i st.rows).getD (initRowVal (specAt c i)))
      else if k < c.nspecs ∧ k ≠ i ∧ (specAt c k).group_id = some g then none
      else alookup k st.rows := by
  have hrs1 : ∀ p ∈ ({ st with sel := setSel st.sel i true } : UIState).rows,
      ({ st with sel := setSel st.sel i true } : UIState).sel p.1 = true := by
    intro p hp
    show setSel st.sel i true p.1 = true
    by_cases hpi : p.1 = i
    · rw [hpi]
      exact setSel_self _ _ _
    · rw [setSel_ne _ _ _ _ hpi]
      exact hrs p hp
  have hchar : ∀ k2,
      alookup k2 (deselectOthers c i g { st with sel := setSel st.sel i true }).rows =
        if k2 ∈ List.range c.nspecs ∧ k2 ≠ i ∧ (specAt c k2).group_id = some g then none
        else alookup k2 st.rows := by
    intro k2
    unfold deselectOthers
    exact deselect_fold_rows c i g (List.range c.nspecs) _ hrs1 k2
  simp only [writeSel, hg, if_true]
  rw [ensureRow_rows_lookup]
  by_cases hk : k = i
  · subst hk
    rw [if_pos rfl, if_pos rfl, hchar k]
    rw [if_neg (fun hh => hh.2.1 rfl)]
  · rw [if_neg hk, if_neg hk, hchar k]
    simp only [List.mem_range]

/-! ### The reachable-state invariant -/

theorem isRequired_iff (c : CommandMeta) (k : Nat) :
    isRequired c k = true ↔ k < c.arguments.length := by
  simp [isRequired]

theorem nargs_le_nspecs (c : CommandMeta) : c.arguments.length ≤ c.nspecs := by
  unfold CommandMeta.nspecs CommandMeta.specs
  rw [List.length_append]
  omega

theorem alookup_range_map (f : Nat → RowVal) (m k : Nat) :
    alookup k ((List.range m).map (fun j => (j, f j))) =
      if k < m then some (f k) else none := by
  induction m with
  | zero => simp [alookup]
  | succ m ih =>
    rw [List.range_succ, List.map_append]
    have hone : List.map (fun j => (j, f j)) [m] = [(m, f m)] := rfl
    rw [hone]
    by_cases hk : k < m
    · have hkm : k ≠ m := by omega
      rw [alookup_append_one_ne _ m k _ hkm, ih, if_pos hk, if_pos (by omega)]
    · by_cases hkm : k = m
      · have hnone : alookup k (List.map (fun j => (j, f j)) (List.range m)) = none := by
          rw [ih, if_neg hk]
        rw [hkm] at hnone ⊢
        rw [alookup_append_one_self _ _ _ hnone, if_pos (by omega)]
      · rw [alookup_append_one_ne _ m k _ hkm, ih, if_neg hk, if_neg (by omega)]

theorem initState_sel (c : CommandMeta) (k : Nat) :
    (initState c).sel k = isRequired c k := rfl

theorem initState_rows_lookup (c : CommandMeta) (k : Nat) :
    alookup k (initState c).rows =
      if k < c.arguments.length then some (initRowVal (specAt c k)) else none :=
  alookup_range_map _ _ _

/-- The invariant every reachable selection state satisfies: rows and
selection track each other, required specs stay selected, all indices are in
range, and every row holds a variable of its spec's kind. -/
structure StInv (c : CommandMeta) (st : UIState) : Prop where
  rows_sel : ∀ p ∈ st.rows, st.sel p.1 = true
  sel_rows : ∀ k, st.sel k = true → (alookup k st.rows).isSome = true
  req_sel : ∀ k, isRequired c k = true → st.sel k = true
  rows_lt : ∀ p ∈ st.rows, p.1 < c.nspecs
  sel_lt : ∀ k, st.sel k = true → k < c.nspecs
  kind_ok : ∀ p ∈ st.rows, sameKind p.2 (initRowVal (specAt c p.1)) = true

theorem inv_init (c : CommandMeta) : StInv c (initState c) := by
  have hmem : ∀ p ∈ (initState c).rows,
      p.1 < c.arguments.length ∧ p.2 = initRowVal (specAt c p.1) := by
    intro p hp
    rcases List.mem_map.mp hp with ⟨j, hj, hje⟩
    rcases p with ⟨p1, p2⟩
    have h1 : j = p1 := congrArg Prod.fst hje
    have h2 : initRowVal (specAt c j) = p2 := congrArg Prod.snd hje
    subst h1
    exact ⟨List.mem_range.mp hj, h2.symm⟩
  constructor
  · intro p hp
    rw [initState_sel, isRequired_iff]
    exact (hmem p hp).1
  · intro k hk
    rw [initState_sel, isRequired_iff] at hk
    rw [initState_rows_lookup, if_pos hk]
    rfl
  · intro k hk
    rw [initState_sel]
    exact hk
  · intro p hp
    have := (hmem p hp).1
    have h2 := nargs_le_nspecs c
    omega
  · intro k hk
    rw [initState_sel, isRequired_iff] at hk
    have h2 := nargs_le_nspecs c
    omega
  · intro p hp
    rw [(hmem p hp).2]
    exact sameKind_self _

theorem inv_writeSel_true (c : CommandMeta) (st : UIState) (i : Nat)
    (hInv : StInv c st) (hi : i < c.nspecs) (hwf : ReqUngrouped c) :
    StInv c (writeSel c st i true) := by
  cases hg : (specAt c i).group_id with
  | none =>
    have hsel := writeSel_true_sel_nog c st i hg
    have hrows := writeSel_true_rows_nog c st i hg
    have hmem : ∀ p ∈ (writeSel c st i true).rows,
        p ∈ st.rows ∨ p = (i, initRowVal (specAt c i)) := by
      intro p hp
      simp only [writeSel, hg, if_true] at hp
      exact mem_ensureRow c { st with sel := setSel st.sel i true } i p hp
    constructor
    · intro p hp
      rw [hsel]
      rcases hmem p hp with h1 | h2
      · by_cases hpi : p.1 = i
        · rw [hpi]
          exact setSel_self _ _ _
        · rw [setSel_ne _ _ _ _ hpi]
          exact hInv.rows_sel p h1
      · rw [h2]
        exact setSel_self _ _ _
    · intro k hk
      rw [hrows]
      by_cases hki : k = i
      · rw [if_pos hki]
        rfl
      · rw [if_neg hki]
        rw [hsel, setSel_ne _ _ _ _ hki] at hk
        exact hInv.sel_rows k hk
    · intro k hk
      rw [hsel]
      by_cases hki : k = i
      · rw [hki]
        exact setSel_self _ _ _
      · rw [setSel_ne _ _ _ _ hki]
        exact hInv.req_sel k hk
    · intro p hp
      rcases hmem p hp with h1 | h2
      · exact hInv.rows_lt p h1
      · rw [h2]
        exact hi
    · intro k hk
      rw [hsel] at hk
      by_cases hki : k = i
      · rw [hki] at hk ⊢
        exact hi
      · rw [setSel_ne _ _ _ _ hki] at hk
        exact hInv.sel_lt k hk
    · intro p hp
      rcases hmem p hp with h1 | h2
      · exact hInv.kind_ok p h1
      · rw [h2]
        exact sameKind_self _
  | some g =>
    have hsel := writeSel_true_sel_grp c st i g hg
    have hrows := writeSel_true_rows_grp c st i g hg hInv.rows_sel
    have hmem : ∀ p ∈ (writeSel c st i true).rows,
        p ∈ st.rows ∨ p = (i, initRowVal (specAt c i)) := by
      intro p hp
      simp only [writeSel, hg, if_true] at hp
      rcases mem_ensureRow c
          (deselectOthers c i g { st with sel := setSel st.sel i true }) i p hp with h1 | h2
      · exact Or.inl (deselect_fold_rows_subset c i g (List.range c.nspecs)
          { st with sel := setSel st.sel i true } p h1)
      · exact Or.inr h2
    have hnotdes : ∀ p ∈ (writeSel c st i true).rows,
        ¬ (p.1 < c.nspecs ∧ p.1 ≠ i ∧ (specAt c p.1).group_id = some g) := by
      intro p hp hcond
      have hlk := hrows p.1
      rw [if_neg hcond.2.1, if_pos hcond] at hlk
      rw [alookup_eq_none_iff] at hlk
      exact hlk p hp rfl
    constructor
    · intro p hp
      rw [hsel]
      rcases hmem p hp with h1 | h2
      · rw [if_neg (hnotdes p hp)]
        by_cases hpi : p.1 = i
        · rw [hpi]
          exact setSel_self _ _ _
        · rw [setSel_ne _ _ _ _ hpi]
          exact hInv.rows_sel p h1
      · have hpi : p.1 = i := by rw [h2]
        rw [if_neg (fun hh => hh.2.1 hpi), hpi]
        exact setSel_self _ _ _
    · intro k hk
      rw [hsel] at hk
      by_cases hcond : k < c.nspecs ∧ k ≠ i ∧ (specAt c k).group_id = some g
      · rw [if_pos hcond] at hk
        exact absurd hk (by simp)
      · rw [if_neg hcond] at hk
        rw [hrows]
        by_cases hki : k = i
        · rw [if_pos hki]
          rfl
        · rw [if_neg hki, if_neg hcond]
          rw [setSel_ne _ _ _ _ hki] at hk
          exact hInv.sel_rows k hk
    · intro k hk
      rw [hsel]
      have hgk : (specAt c k).group_id = none := by
        have hlt : k < c.arguments.length := (isRequired_iff c k).mp hk
        have hle := nargs_le_nspecs c
        exact hwf k (by omega) hk
      rw [if_neg (fun hh => by rw [hgk] at hh; exact Option.noConfusion hh.2.2)]
      by_cases hki : k = i
      · rw [hki]
        exact setSel_self _ _ _
      · rw [setSel_ne _ _ _ _ hki]
        exact hInv.req_sel k hk
    · intro p hp
      rcases hmem p hp with h1 | h2
      · exact hInv.rows_lt p h1
      · rw [h2]
        exact hi
    · intro k hk
      rw [hsel] at hk
      by_cases hcond : k < c.nspecs ∧ k ≠ i ∧ (specAt c k).group_id = some g
      · rw [if_pos hcond] at hk
        exact absurd hk (by simp)
      · rw [if_neg hcond] at hk
        by_cases hki : k = i
        · rw [hki] at hk ⊢
          exact hi
        · rw [setSel_ne _ _ _ _ hki] at hk
          exact hInv.sel_lt k hk
    · intro p hp
      rcases hmem p hp with h1 | h2
      · exact hInv.kind_ok p h1
      · rw [h2]
        exact sameKind_self _

theorem inv_writeSel_false (c : CommandMeta) (st : UIState) (i : Nat)
    (hInv : StInv c st) (hreq : isRequired c i = false) :
    StInv c (writeSel c st i false) := by
  have hsel := writeSel_false_sel c st i
  have hrows := writeSel_false_rows c st i
  constructor
  · intro p hp
    have hm := mem_writeSel_false_rows c st i p hp
    rw [hsel, if_neg hm.2]
    exact hInv.rows_sel p hm.1
  · intro k hk
    rw [hsel] at hk
    by_cases hki : k = i
    · rw [if_pos hki] at hk
      exact absurd hk (by simp)
    · rw [if_neg hki] at hk
      rw [hrows, if_neg hki]
      exact hInv.sel_rows k hk
  · intro k hk
    rw [hsel]
    by_cases hki : k = i
    · rw [hki] at hk
      rw [hk] at hreq
      exact absurd hreq (by simp)
    · rw [if_neg hki]
      exact hInv.req_sel k hk
  · intro p hp
    exact hInv.rows_lt p (mem_writeSel_false_rows c st i p hp).1
  · intro k hk
    rw [hsel] at hk
    by_cases hki : k = i
    · rw [if_pos hki] at hk
      exact absurd hk (by simp)
    · rw [if_neg hki] at hk
      exact hInv.sel_lt k hk
  · intro p hp
    exact hInv.kind_ok p (mem_writeSel_false_rows c st i p hp).1

theorem editRow_sel (st : UIState) (i : Nat) (v : RowVal) :
    (editRow st i v).sel = st.sel := rfl

theorem inv_editRow (c : CommandMeta) (st : UIState) (i : Nat) (v : RowVal)
    (hInv : StInv c st) : StInv c (editRow st i v) := by
  have hmem : ∀ p ∈ (editRow st i v).rows,
      p ∈ st.rows ∨ (p.1 = i ∧ p.2 = v ∧ ∃ q ∈ st.rows, q.1 = i ∧ sameKind q.2 v = true) := by
    intro p hp
    exact mem_updRows i v st.rows p hp
  constructor
  · intro p hp
    rw [editRow_sel]
    rcases hmem p hp with h1 | ⟨h1, h2, q, hq, hq1, hq2⟩
    · exact hInv.rows_sel p h1
    · rw [h1, ← hq1]
      exact hInv.rows_sel q hq
  · intro k hk
    rw [editRow_sel] at hk
    show (alookup k (updRows i v st.rows)).isSome = true
    by_cases hki : k = i
    · subst hki
      rw [alookup_updRows_at]
      have := hInv.sel_rows k hk
      cases hm : alookup k st.rows
      · rw [hm] at this
        exact absurd this (by simp)
      · simp [hm]
    · rw [alookup_updRows_ne _ _ _ _ hki]
      exact hInv.sel_rows k hk
  · intro k hk
    rw [editRow_sel]
    exact hInv.req_sel k hk
  · intro p hp
    rcases hmem p hp with h1 | ⟨h1, h2, q, hq, hq1, hq2⟩
    · exact hInv.rows_lt p h1
    · rw [h1, ← hq1]
      exact hInv.rows_lt q hq
  · intro k hk
    rw [editRow_sel] at hk
    exact hInv.sel_lt k hk
  · intro p hp
    rcases hmem p hp with h1 | ⟨h1, h2, q, hq, hq1, hq2⟩
    · exact hInv.kind_ok p h1
    · rw [h1, h2]
      have hkq := hInv.kind_ok q hq
      rw [hq1] at hkq
      rw [sameKind_symm] at hq2
      exact sameKind_trans v q.2 _ hq2 hkq

theorem inv_reach (c : CommandMeta) (hwf : ReqUngrouped c) :
    ∀ st, Reach c st → StInv c st := by
  intro st h
  induction h with
  | init => exact inv_init c
  | toggle st2 i b hr hlow hhigh ih =>
    cases b with
    | false =>
      refine inv_writeSel_false c st2 i ih ?_
      rw [show isRequired c i = decide (i < c.arguments.length) from rfl]
      simp
      omega
    | true => exact inv_writeSel_true c st2 i ih hhigh hwf
  | restoreReq st2 i hr hreq ih =>
    have hi : i < c.nspecs := by
      have := (isRequired_iff c i).mp hreq
      have h2 := nargs_le_nspecs c
      omega
    exact inv_writeSel_true c st2 i ih hi hwf
  | edit st2 i v hr ih => exact inv_editRow c st2 i v ih

/-! ### At most one selected member per mutual-exclusion group -/

theorem amo_init (c : CommandMeta) (hwf : ReqUngrouped c) :
    AtMostOneInGroup c (initState c) := by
  intro i hi j hj hsi hsj hgs hgg
  rw [initState_sel] at hsi
  have hg := hwf i hi hsi
  rw [hg] at hgs
  exact absurd hgs (by simp)

theorem amo_writeSel_false (c : CommandMeta) (st : UIState) (i : Nat)
    (h : AtMostOneInGroup c st) : AtMostOneInGroup c (writeSel c st i false) := by
  intro a ha b hb hsa hsb hgs hgg
  rw [writeSel_false_sel] at hsa hsb
  by_cases hai : a = i
  · rw [if_pos hai] at hsa
    exact absurd hsa (by simp)
  · rw [if_neg hai] at hsa
    by_cases hbi : b = i
    · rw [if_pos hbi] at hsb
      exact absurd hsb (by simp)
    · rw [if_neg hbi] at hsb
      exact h a ha b hb hsa hsb hgs hgg

theorem amo_writeSel_true (c : CommandMeta) (st : UIState) (i : Nat)
    (h : AtMostOneInGroup c st) : AtMostOneInGroup c (writeSel c st i true) := by
  cases hg : (specAt c i).group_id with
  | none =>
    intro a ha b hb hsa hsb hgs hgg
    rw [writeSel_true_sel_nog c st i hg] at hsa hsb
    by_cases hai : a = i
    · rw [hai, hg] at hgs
      exact absurd hgs (by simp)
    · by_cases hbi : b = i
      · rw [hgg, hbi, hg] at hgs
        exact absurd hgs (by simp)
      · rw [setSel_ne _ _ _ _ hai] at hsa
        rw [setSel_ne _ _ _ _ hbi] at hsb
        exact h a ha b hb hsa hsb hgs hgg
  | some g =>
    intro a ha b hb hsa hsb hgs hgg
    rw [writeSel_true_sel_grp c st i g hg] at hsa hsb
    by_cases hconda : a < c.nspecs ∧ a ≠ i ∧ (specAt c a).group_id = some g
    · rw [if_pos hconda] at hsa
      exact absurd hsa (by simp)
    · rw [if_neg hconda] at hsa
      by_cases hcondb : b < c.nspecs ∧ b ≠ i ∧ (specAt c b).group_id = some g
      · rw [if_pos hcondb] at hsb
        exact absurd hsb (by simp)
      · rw [if_neg hcondb] at hsb
        by_cases hga : (specAt c a).group_id = some g
        · have hai : a = i := by
            by_cases hai : a = i
            · exact hai
            · exact absurd ⟨ha, hai, hga⟩ hconda
          have hgb : (specAt c b).group_id = some g := by
            rw [← hgg]
            exact hga
          have hbi : b = i := by
            by_cases hbi : b = i
            · exact hbi
            · exact absurd ⟨hb, hbi, hgb⟩ hcondb
          rw [hai, hbi]
        · have hai : a ≠ i := by
            intro hh
            rw [hh, hg] at hga
            exact hga rfl
          have hgb : (specAt c b).group_id ≠ some g := by
            rw [← hgg]
            exact hga
          have hbi : b ≠ i := by
            intro hh
            rw [hh, hg] at hgb
            exact hgb rfl
          rw [setSel_ne _ _ _ _ hai] at hsa
          rw [setSel_ne _ _ _ _ hbi] at hsb
          exact h a ha b hb hsa hsb hgs hgg

theorem amo_editRow (c : CommandMeta) (st : UIState) (i : Nat) (v : RowVal)
    (h : AtMostOneInGroup c st) : AtMostOneInGroup c (editRow st i v) := by
  intro a ha b hb hsa hsb hgs hgg
  rw [editRow_sel] at hsa hsb
  exact h a ha b hb hsa hsb hgs hgg

theorem amo_reach (c : CommandMeta) (hwf : ReqUngrouped c) :
    ∀ st, Reach c st → AtMostOneInGroup c st := by
  intro st h
  induction h with
  | init => exact amo_init c hwf
  | toggle st2 i b hr hlow hhigh ih =>
    cases b with
    | false => exact amo_writeSel_false c st2 i ih
    | true => exact amo_writeSel_true c st2 i ih
  | restoreReq st2 i hr hreq ih => exact amo_writeSel_true c st2 i ih
  | edit st2 i v hr ih => exact amo_editRow c st2 i v ih

/-! ### Claim C3 -/

/-- Claim C3 counterexample: the very first reachable state of a command with
a positional already holds that positional in both the selected set and the
values map — positionals are implicitly selected, not absent. -/
theorem claim_C3_cex :
    Reach exCmd (initState exCmd) ∧
    (specAt exCmd 0).is_positional = true ∧
    (initState exCmd).sel 0 = true ∧
    (alookup 0 (initState exCmd).rows).isSome = true :=
  ⟨Reach.init, by decide, by decide, by decide⟩

/-- Claim C3 as amended: in every reachable selection state every key in the
values map is also selected, and positional (required) specs are permanently
present in both the selected set and the values map, rather than absent from
them. -/
theorem claim_C3_values_selected (c : CommandMeta) (st : UIState)
    (hwf : ReqUngrouped c) (hst : Reach c st) :
    (∀ p ∈ st.rows, st.sel p.1 = true) ∧
    (∀ i, isRequired c i = true → st.sel i = true ∧ (alookup i st.rows).isSome = true) := by
  have h := inv_reach c hwf st hst
  exact ⟨h.rows_sel, fun i hi => ⟨h.req_sel i hi, h.sel_rows i (h.req_sel i hi)⟩⟩

theorem claim_C3_values_selected_witness :
    (initState exCmd).sel 0 = true ∧ (alookup 0 (initState exCmd).rows).isSome = true :=
  (claim_C3_values_selected exCmd (initState exCmd) (by unfold ReqUngrouped; decide)
    Reach.init).2 0 (by decide)

/-! ### Claim C4 -/

/-- Claim C4: in every reachable state at most one member of each
mutual-exclusion group is selected, and selecting a grouped spec deselects
every other same-group member. -/
theorem claim_C4_mutex (c : CommandMeta) (st : UIState)
    (hwf : ReqUngrouped c) (hst : Reach c st) :
    AtMostOneInGroup c st ∧
    (∀ i g, (specAt c i).group_id = some g →
      ∀ j, j ≠ i → j < c.nspecs → (specAt c j).group_id = some g →
        (writeSel c st i true).sel j = false) := by
  refine ⟨amo_reach c hwf st hst, ?_⟩
  intro i g hg j hji hjn hgj
  rw [writeSel_true_sel_grp c st i g hg]
  rw [if_pos ⟨hjn, hji, hgj⟩]

theorem claim_C4_mutex_witness :
    (writeSel exCmd (writeSel exCmd (initState exCmd) 1 true) 2 true).sel 1 = false :=
  (claim_C4_mutex exCmd (writeSel exCmd (initState exCmd) 1 true)
    (by unfold ReqUngrouped; decide)
    (Reach.toggle (initState exCmd) 1 true Reach.init (by decide) (by decide))).2
    2 7 (by decide) 1 (by decide) (by decide) (by decide)

/-! ### Round-trip machinery for the preference store -/

theorem pyOrEmpty_eq (v : String) : pyOrEmpty v = v := by
  by_cases h : v = "" <;> simp [pyOrEmpty, h]

theorem alookup_some_mem {α β : Type} [DecidableEq α] (l : List (α × β)) (k : α) (v : β)
    (h : alookup k l = some v) : (k, v) ∈ l := by
  induction l with
  | nil => simp [alookup] at h
  | cons p rest ih =>
    rw [alookup_cons] at h
    by_cases hp : p.1 = k
    · rw [if_pos hp] at h
      have hv : p.2 = v := by simpa using h
      have hpair : p = (k, v) := by
        rcases p with ⟨p1, p2⟩
        simp at hp hv
        rw [hp, hv]
      rw [← hpair]
      exact List.mem_cons_self _ _
    · rw [if_neg hp] at h
      exact List.mem_cons_of_mem _ (ih h)

theorem rowval_of_flag (c : CommandMeta) (st : UIState) (m : Nat)
    (hInv : StInv c st) (hsel : st.sel m = true)
    (hf : (specAt c m).is_flag = true) :
    ∃ b, alookup m st.rows = some (RowVal.flagVal b) := by
  have hs := hInv.sel_rows m hsel
  cases hlk : alookup m st.rows with
  | none =>
    rw [hlk] at hs
    exact absurd hs (by simp)
  | some r =>
    have hmem := alookup_some_mem st.rows m r hlk
    have hkind := hInv.kind_ok (m, r) hmem
    rw [show ((m, r) : Nat × RowVal).2 = r from rfl,
        show ((m, r) : Nat × RowVal).1 = m from rfl] at hkind
    unfold initRowVal at hkind
    rw [if_pos hf] at hkind
    cases r with
    | flagVal b => exact ⟨b, rfl⟩
    | strVal v => exact absurd hkind (by simp [sameKind])

theorem rowval_of_str (c : CommandMeta) (st : UIState) (m : Nat)
    (hInv : StInv c st) (hsel : st.sel m = true)
    (hf : (specAt c m).is_flag = false) :
    ∃ v, alookup m st.rows = some (RowVal.strVal v) := by
  have hs := hInv.sel_rows m hsel
  cases hlk : alookup m st.rows with
  | none =>
    rw [hlk] at hs
    exact absurd hs (by simp)
  | some r =>
    have hmem := alookup_some_mem st.rows m r hlk
    have hkind := hInv.kind_ok (m, r) hmem
    rw [show ((m, r) : Nat × RowVal).2 = r from rfl,
        show ((m, r) : Nat × RowVal).1 = m from rfl] at hkind
    unfold initRowVal at hkind
    rw [if_neg (by rw [hf]; exact Bool.false_ne_true)] at hkind
    cases r with
    | flagVal b => exact absurd hkind (by simp [sameKind])
    | strVal v => exact ⟨v, rfl⟩

theorem saveOptions_lookup (c : CommandMeta) (st : UIState)
    (opts0 : List (String × OptRecord)) (HK : KeysDistinct c) :
    ∀ m, m ≤ c.nspecs → ∀ i, i < m →
      ∃ r, alookup (specAt c i).key ((List.range m).foldl (saveStep c st) opts0) = some r ∧
        r.selected = st.sel i ∧
        ((specAt c i).is_flag = true → r.flag = some (rowFlag st i)) ∧
        ((specAt c i).is_flag = false → r.value = some (rowStr st i)) := by
  intro m
  induction m with
  | zero =>
    intro hle i hi
    omega
  | succ m ih =>
    intro hle i hi
    rw [List.range_succ, List.foldl_append, List.foldl_cons, List.foldl_nil]
    set acc := (List.range m).foldl (saveStep c st) opts0 with hacc
    show ∃ r, alookup (specAt c i).key (saveStep c st acc m) = some r ∧ _
    by_cases hflag : (specAt c m).is_flag = true
    · have hstep : saveStep c st acc m =
          assocSet acc (specAt c m).key
            { (alookup (specAt c m).key acc).getD defaultRec with
              selected := st.sel m, flag := some (rowFlag st m) } := by
        simp only [saveStep, hflag, if_true]
      rw [hstep]
      by_cases him : i = m
      · subst him
        refine ⟨_, alookup_assocSet_self _ _ _, rfl, fun _ => rfl, fun hcontra => ?_⟩
        rw [hflag] at hcontra
        exact absurd hcontra (by simp)
      · have hkeyne : (specAt c i).key ≠ (specAt c m).key := by
          intro hh
          exact him (HK i (by omega) m (by omega) hh)
        rw [alookup_assocSet_ne _ _ _ _ hkeyne]
        exact ih (by omega) i (by omega)
    · have hflag2 : (specAt c m).is_flag = false := by
        cases hb : (specAt c m).is_flag
        · rfl
        · exact absurd hb hflag
      have hstep : saveStep c st acc m =
          assocSet acc (specAt c m).key
            { (alookup (specAt c m).key acc).getD defaultRec with
              selected := st.sel m, value := some (rowStr st m) } := by
        simp only [saveStep, hflag2, Bool.false_eq_true, if_false]
      rw [hstep]
      by_cases him : i = m
      · subst him
        refine ⟨_, alookup_assocSet_self _ _ _, rfl, fun hcontra => ?_, fun _ => rfl⟩
        rw [hflag2] at hcontra
        exact absurd hcontra (by simp)
      · have hkeyne : (specAt c i).key ≠ (specAt c m).key := by
          intro hh
          exact him (HK i (by omega) m (by omega) hh)
        rw [alookup_assocSet_ne _ _ _ _ hkeyne]
        exact ih (by omega) i (by omega)

theorem apply_fold_round (c : CommandMeta) (st : UIState)
    (opts0 : List (String × OptRecord))
    (HK : KeysDistinct c) (hwf : ReqUngrouped c) (hInv : StInv c st)
    (hamo : AtMostOneInGroup c st) :
    ∀ m, m ≤ c.nspecs →
      (∀ k, ((List.range m).foldl (applyStep c (saveOptions c st opts0)) (initState c)).sel k
          = if k < m then st.sel k else (initState c).sel k) ∧
      (∀ k, alookup k ((List.range m).foldl (applyStep c (saveOptions c st opts0)) (initState c)).rows
          = if k < m then alookup k st.rows else alookup k (initState c).rows) ∧
      StInv c ((List.range m).foldl (applyStep c (saveOptions c st opts0)) (initState c)) := by
  intro m
  induction m with
  | zero =>
    intro hle
    refine ⟨?_, ?_, inv_init c⟩
    · intro k
      simp
    · intro k
      simp
  | succ m ih =>
    intro hle
    obtain ⟨ihsel, ihrows, ihinv⟩ := ih (by omega)
    set A := (List.range m).foldl (applyStep c (saveOptions c st opts0)) (initState c) with hA
    have hfold : (List.range (m + 1)).foldl (applyStep c (saveOptions c st opts0)) (initState c)
        = applyStep c (saveOptions c st opts0) A m := by
      rw [List.range_succ, List.foldl_append, List.foldl_cons, List.foldl_nil]
    obtain ⟨r, hr, hrsel, hrflag, hrval⟩ :=
      saveOptions_lookup c st opts0 HK c.nspecs (Nat.le_refl _) m (by omega)
    have hr2 : alookup (specAt c m).key (saveOptions c st opts0) = some r := hr
    have hm_lt : m < c.nspecs := by omega
    have htarget : (isRequired c m || r.selected) = st.sel m := by
      rw [hrsel]
      cases hb : isRequired c m
      · simp
      · simp [hInv.req_sel m hb]
    cases hselm : st.sel m with
    | false =>
      have hreqm : isRequired c m = false := by
        cases hb : isRequired c m
        · rfl
        · have := hInv.req_sel m hb
          rw [hselm] at this
          exact absurd this (by simp)
      have happ : applyStep c (saveOptions c st opts0) A m = writeSel c A m false := by
        simp only [applyStep, hr2, applyOpt, htarget, hselm]
        simp
      have hnone : alookup m st.rows = none := by
        rw [alookup_eq_none_iff]
        intro p hp hpk
        have hps := hInv.rows_sel p hp
        rw [hpk, hselm] at hps
        exact absurd hps (by simp)
      rw [hfold, happ]
      refine ⟨?_, ?_, inv_writeSel_false c A m ihinv hreqm⟩
      · intro k
        rw [writeSel_false_sel]
        by_cases hkm : k = m
        · subst hkm
          rw [if_pos rfl, if_pos (by omega), hselm]
        · rw [if_neg hkm, ihsel k]
          by_cases hklt : k < m
          · rw [if_pos hklt, if_pos (by omega)]
          · rw [if_neg hklt, if_neg (by omega)]
      · intro k
        rw [writeSel_false_rows]
        by_cases hkm : k = m
        · subst hkm
          rw [if_pos rfl, if_pos (by omega), hnone]
        · rw [if_neg hkm, ihrows k]
          by_cases hklt : k < m
          · rw [if_pos hklt, if_pos (by omega)]
          · rw [if_neg hklt, if_neg (by omega)]
    | true =>
      have hs1sel : ∀ k, (writeSel c A m true).sel k = setSel A.sel m true k := by
        intro k
        cases hgm : (specAt c m).group_id with
        | none => exact writeSel_true_sel_nog c A m hgm k
        | some g =>
          rw [writeSel_true_sel_grp c A m g hgm k]
          by_cases hcond : k < c.nspecs ∧ k ≠ m ∧ (specAt c k).group_id = some g
          · rw [if_pos hcond]
            have hAk : A.sel k = false := by
              rw [ihsel k]
              by_cases hklt : k < m
              · rw [if_pos hklt]
                cases hsk : st.sel k
                · rfl
                · exact absurd
                    (hamo m hm_lt k hcond.1 hselm hsk (by rw [hgm]; rfl)
                      (by rw [hgm, hcond.2.2]))
                    (fun hh => hcond.2.1 hh.symm)
              · rw [if_neg hklt, initState_sel]
                cases hb : isRequired c k
                · rfl
                · have := hwf k hcond.1 hb
                  rw [this] at hcond
                  exact absurd hcond.2.2 (by simp)
            rw [setSel_ne _ _ _ _ hcond.2.1, hAk]
          · rw [if_neg hcond]
      have hinitm : (alookup m A.rows).getD (initRowVal (specAt c m)) = initRowVal (specAt c m) := by
        rw [ihrows m, if_neg (by omega), initState_rows_lookup]
        by_cases hb : m < c.arguments.length
        · rw [if_pos hb]
          rfl
        · rw [if_neg hb]
          rfl
      have hs1rows : ∀ k, alookup k (writeSel c A m true).rows =
          if k = m then some (initRowVal (specAt c m)) else alookup k A.rows := by
        intro k
        cases hgm : (specAt c m).group_id with
        | none =>
          rw [writeSel_true_rows_nog c A m hgm k]
          by_cases hkm : k = m
          · subst hkm
            rw [if_pos rfl, if_pos rfl, hinitm]
          · rw [if_neg hkm, if_neg hkm]
        | some g =>
          rw [writeSel_true_rows_grp c A m g hgm ihinv.rows_sel k]
          by_cases hkm : k = m
          · subst hkm
            rw [if_pos rfl, if_pos rfl, hinitm]
          · rw [if_neg hkm, if_neg hkm]
            by_cases hcond : k < c.nspecs ∧ k ≠ m ∧ (specAt c k).group_id = some g
            · rw [if_pos hcond]
              have : alookup k A.rows = none := by
                rw [ihrows k]
                by_cases hklt : k < m
                · rw [if_pos hklt]
                  have hsk : st.sel k = false := by
                    cases hsk : st.sel k
                    · rfl
                    · exact absurd
                        (hamo m hm_lt k hcond.1 hselm hsk (by rw [hgm]; rfl)
                          (by rw [hgm, hcond.2.2]))
                        (fun hh => hcond.2.1 hh.symm)
                  rw [alookup_eq_none_iff]
                  intro p hp hpk
                  have hps := hInv.rows_sel p hp
                  rw [hpk, hsk] at hps
                  exact absurd hps (by simp)
                · rw [if_neg hklt, initState_rows_lookup]
                  have hb : isRequired c k = false := by
                    cases hb : isRequired c k
                    · rfl
                    · have := hwf k hcond.1 hb
                      rw [this] at hcond
                      exact absurd hcond.2.2 (by simp)
                  rw [if_neg (by
                    intro hh
                    rw [show isRequired c k = decide (k < c.arguments.length) from rfl] at hb
                    simp at hb
                    omega)]
              rw [this]
            · rw [if_neg hcond]
      have hs1some : (alookup m (writeSel c A m true).rows).isSome = true := by
        rw [hs1rows m, if_pos rfl]
        rfl
      have hst2 : ensureRow c (writeSel c A m true) m = writeSel c A m true := by
        unfold ensureRow
        rw [if_pos hs1some]
      have hinv1 : StInv c (writeSel c A m true) := inv_writeSel_true c A m ihinv hm_lt hwf
      by_cases hfm : (specAt c m).is_flag = true
      · obtain ⟨b, hb⟩ := rowval_of_flag c st m hInv hselm hfm
        have hrowflag : rowFlag st m = b := by
          unfold rowFlag
          rw [hb]
        have hrf := hrflag hfm
        have happ : applyStep c (saveOptions c st opts0) A m =
            editRow (writeSel c A m true) m (RowVal.flagVal b) := by
          simp only [applyStep, hr2, applyOpt, htarget, hselm, if_true, hst2, hfm]
          rw [hrf, hrowflag]
          rfl
        rw [hfold, happ]
        refine ⟨?_, ?_, inv_editRow c _ m (RowVal.flagVal b) hinv1⟩
        · intro k
          rw [editRow_sel, hs1sel k]
          by_cases hkm : k = m
          · subst hkm
            rw [setSel_self, if_pos (by omega), hselm]
          · rw [setSel_ne _ _ _ _ hkm, ihsel k]
            by_cases hklt : k < m
            · rw [if_pos hklt, if_pos (by omega)]
            · rw [if_neg hklt, if_neg (by omega)]
        · intro k
          show alookup k (updRows m (RowVal.flagVal b) (writeSel c A m true).rows) = _
          by_cases hkm : k = m
          · subst hkm
            rw [alookup_updRows_at, hs1rows k, if_pos rfl, if_pos (by omega), hb]
            have hkind : sameKind (initRowVal (specAt c k)) (RowVal.flagVal b) = true := by
              unfold initRowVal
              rw [if_pos hfm]
              rfl
            simp [hkind]
          · rw [alookup_updRows_ne _ _ _ _ hkm, hs1rows k, if_neg hkm, ihrows k]
            by_cases hklt : k < m
            · rw [if_pos hklt, if_pos (by omega)]
            · rw [if_neg hklt, if_neg (by omega)]
      · have hfm2 : (specAt c m).is_flag = false := by
          cases hbb : (specAt c m).is_flag
          · rfl
          · exact absurd hbb hfm
        obtain ⟨v0, hv0⟩ := rowval_of_str c st m hInv hselm hfm2
        have hrowstr : rowStr st m = v0 := by
          unfold rowStr
          rw [hv0]
        have hrv := hrval hfm2
        have happ : applyStep c (saveOptions c st opts0) A m =
            editRow (writeSel c A m true) m (RowVal.strVal v0) := by
          simp only [applyStep, hr2, applyOpt, htarget, hselm, if_true, hst2, hfm2,
            Bool.false_eq_true, if_false]
          rw [hrv, hrowstr]
          show editRow (writeSel c A m true) m (RowVal.strVal (pyOrEmpty v0)) = _
          rw [pyOrEmpty_eq]
        rw [hfold, happ]
        refine ⟨?_, ?_, inv_editRow c _ m (RowVal.strVal v0) hinv1⟩
        · intro k
          rw [editRow_sel, hs1sel k]
          by_cases hkm : k = m
          · subst hkm
            rw [setSel_self, if_pos (by omega), hselm]
          · rw [setSel_ne _ _ _ _ hkm, ihsel k]
            by_cases hklt : k < m
            · rw [if_pos hklt, if_pos (by omega)]
            · rw [if_neg hklt, if_neg (by omega)]
        · intro k
          show alookup k (updRows m (RowVal.strVal v0) (writeSel c A m true).rows) = _
          by_cases hkm : k = m
          · subst hkm
            rw [alookup_updRows_at, hs1rows k, if_pos rfl, if_pos (by omega), hv0]
            have hkind : sameKind (initRowVal (specAt c k)) (RowVal.strVal v0) = true := by
              unfold initRowVal
              rw [if_neg (by rw [hfm2]; exact Bool.false_ne_true)]
              rfl
            simp [hkind]
          · rw [alookup_updRows_ne _ _ _ _ hkm, hs1rows k, if_neg hkm, ihrows k]
            by_cases hklt : k < m
            · rw [if_pos hklt, if_pos (by omega)]
            · rw [if_neg hklt, if_neg (by omega)]

/-! ### Claim C5 -/

/-- Globals holding an untrimmed working directory, for the counterexample. -/
def gC5 : Globals :=
  { cwd := " a", db := "", linkly := "", detail := 0, quiet := 0, debug := 0 }

/-- Claim C5 counterexample: the round trip is not exact. `_save_prefs`
strips the string globals, so a working directory with surrounding
whitespace comes back changed; and the saved `output` is the Tk text dump,
which carries the widget's trailing newline, so the restored `lastOutput`
differs from the captured one. -/
theorem claim_C5_cex :
    (loadGlobals (savePrefs exCmd (initState exCmd) "out" gC5 "run" emptyDoc) initGlobals).cwd
        ≠ gC5.cwd ∧
    (applySaved exCmd (savePrefs exCmd (initState exCmd) "out" gC5 "run" emptyDoc) "run"
        (initState exCmd) "").2 ≠ "out" := by
  exact ⟨by decide, by decide⟩

/-- Claim C5 as amended: for already-trimmed string globals, save followed by
load reproduces the globals exactly; re-applying the saved state for the
command reproduces the selected set and the values mapping exactly; and the
restored `lastOutput` is the captured output with one extra trailing newline
(the Tk text widget's implicit final newline), not the identical string. -/
theorem claim_C5_roundtrip (c : CommandMeta) (st : UIState) (outBuf outBuf0 : String)
    (g : Globals) (label : String) (doc : PrefsDoc) (g0 : Globals)
    (HK : KeysDistinct c) (hwf : ReqUngrouped c) (hre : Reach c st)
    (hcwd : pyStrip g.cwd = g.cwd) (hdb : pyStrip g.db = g.db)
    (hlk : pyStrip g.linkly = g.linkly) :
    loadGlobals (savePrefs c st outBuf g label doc) g0 = g ∧
    (∀ k, (applySaved c (savePrefs c st outBuf g label doc) label (initState c) outBuf0).1.sel k
        = st.sel k) ∧
    (∀ k, alookup k (applySaved c (savePrefs c st outBuf g label doc) label
        (initState c) outBuf0).1.rows = alookup k st.rows) ∧
    (applySaved c (savePrefs c st outBuf g label doc) label (initState c) outBuf0).2
        = outBuf ++ "\n" := by
  have hInv := inv_reach c hwf st hre
  have hamo := amo_reach c hwf st hre
  have hdoc : savePrefs c st outBuf g label doc =
      { cwd := some (pyStrip g.cwd), db := some (pyStrip g.db),
        linkly := some (pyStrip g.linkly), detail := some g.detail,
        quiet := some g.quiet, debug := some g.debug,
        selected_command := some label,
        commands := assocSet doc.commands label
          { options := saveOptions c st ((alookup label doc.commands).getD emptyCmdState).options,
            output := some (textGetAll outBuf) } } := rfl
  have hcs : alookup label (savePrefs c st outBuf g label doc).commands =
      some { options := saveOptions c st ((alookup label doc.commands).getD emptyCmdState).options,
             output := some (textGetAll outBuf) } := by
    rw [hdoc]
    exact alookup_assocSet_self _ _ _
  have happly : applySaved c (savePrefs c st outBuf g label doc) label (initState c) outBuf0 =
      ((List.range c.nspecs).foldl
          (applyStep c (saveOptions c st ((alookup label doc.commands).getD emptyCmdState).options))
          (initState c),
        textGetAll outBuf) := by
    unfold applySaved
    rw [hcs]
    rfl
  have hmain := apply_fold_round c st ((alookup label doc.commands).getD emptyCmdState).options
    HK hwf hInv hamo c.nspecs (Nat.le_refl _)
  refine ⟨?_, ?_, ?_, ?_⟩
  · rw [hdoc]
    show Globals.mk (pyStrip g.cwd) (pyStrip g.db) (pyStrip g.linkly) g.detail g.quiet g.debug = g
    rw [hcwd, hdb, hlk]
  · intro k
    rw [happly]
    show ((List.range c.nspecs).foldl _ (initState c)).sel k = st.sel k
    rw [hmain.1 k]
    by_cases hk : k < c.nspecs
    · rw [if_pos hk]
    · rw [if_neg hk, initState_sel]
      have h1 : isRequired c k = false := by
        rw [show isRequired c k = decide (k < c.arguments.length) from rfl]
        have := nargs_le_nspecs c
        simp
        omega
      have h2 : st.sel k = false := by
        cases hsk : st.sel k
        · rfl
        · exact absurd (hInv.sel_lt k hsk) hk
      rw [h1, h2]
  · intro k
    rw [happly]
    show alookup k ((List.range c.nspecs).foldl _ (initState c)).rows = alookup k st.rows
    rw [(hmain.2.1) k]
    by_cases hk : k < c.nspecs
    · rw [if_pos hk]
    · rw [if_neg hk, initState_rows_lookup]
      have h1 : ¬ (k < c.arguments.length) := by
        have := nargs_le_nspecs c
        omega
      have h2 : alookup k st.rows = none := by
        rw [alookup_eq_none_iff]
        intro p hp hpk
        have := hInv.rows_lt p hp
        rw [hpk] at this
        omega
      rw [if_neg h1, h2]
  · rw [happly]
    rfl

theorem claim_C5_roundtrip_witness :
    loadGlobals (savePrefs exCmd (initState exCmd) "out" initGlobals "run" emptyDoc) initGlobals
      = initGlobals ∧
    (applySaved exCmd (savePrefs exCmd (initState exCmd) "out" initGlobals "run" emptyDoc) "run"
      (initState exCmd) "").1.sel 0 = (initState exCmd).sel 0 ∧
    (applySaved exCmd (savePrefs exCmd (initState exCmd) "out" initGlobals "run" emptyDoc) "run"
      (initState exCmd) "").2 = "out" ++ "\n" := by
  have h := claim_C5_roundtrip exCmd (initState exCmd) "out" "" initGlobals "run" emptyDoc
    initGlobals (by unfold KeysDistinct; decide) (by unfold ReqUngrouped; decide) Reach.init
    (by decide) (by decide) (by decide)
  exact ⟨h.1, h.2.1 0, h.2.2.2⟩

/-! ### Claim C1 -/

theorem parseStep_nomatch (rs : List RouteRecord) (cur : List String) (ln : String)
    (h : routeStart ln = false) :
    parseStep (rs, cur) ln =
      (rs, if pyStrip ln = "" then (if cur ≠ [] then cur ++ [ln] else cur)
           else cur ++ [ln]) := by
  unfold parseStep
  rw [h]
  simp only [Bool.false_eq_true, if_false]
  by_cases hb : pyStrip ln = ""
  · rw [if_pos hb, if_pos hb]
    by_cases hc : cur ≠ []
    · rw [if_pos hc, if_pos hc]
    · rw [if_neg hc, if_neg hc]
  · rw [if_neg hb, if_neg hb]

theorem parse_nomatch_fold (L : List String) :
    ∀ (rs : List RouteRecord) (cur : List String),
      (∀ ln ∈ L, routeStart ln = false) →
      ∃ cur2, L.foldl parseStep (rs, cur) = (rs, cur ++ cur2) ∧
        (∀ ln ∈ cur2, ln ∈ L) ∧
        ((cur = [] ∧ ∀ ln ∈ L, pyStrip ln = "") → cur2 = []) ∧
        (∀ ln ∈ L, pyStrip ln ≠ "" → ln ∈ cur ++ cur2) := by
  induction L with
  | nil =>
    intro rs cur hno
    refine ⟨[], by simp, by simp, fun _ => rfl, by simp⟩
  | cons ln L2 ih =>
    intro rs cur hno
    have hstep := parseStep_nomatch rs cur ln (hno ln (List.mem_cons_self _ _))
    rw [List.foldl_cons, hstep]
    by_cases hb : pyStrip ln = ""
    · by_cases hc : cur ≠ []
      · rw [if_pos hb, if_pos hc]
        obtain ⟨cur2, hfold, hmem, hblank, hnb⟩ :=
          ih rs (cur ++ [ln]) (fun x hx => hno x (List.mem_cons_of_mem _ hx))
        refine ⟨[ln] ++ cur2, ?_, ?_, ?_, ?_⟩
        · rw [hfold, List.append_assoc]
        · intro x hx
          rcases List.mem_append.mp hx with h1 | h2
          · simp at h1
            rw [h1]
            exact List.mem_cons_self _ _
          · exact List.mem_cons_of_mem _ (hmem x h2)
        · intro hh
          exact absurd hh.1 (by simpa using hc)
        · intro x hx hxb
          rcases List.mem_cons.mp hx with h1 | h2
          · rw [h1] at hxb
            exact absurd hb hxb
          · have := hnb x h2 hxb
            rw [List.append_assoc] at this
            exact this
      · rw [if_pos hb, if_neg hc]
        have hcur : cur = [] := by
          by_cases hh : cur = []
          · exact hh
          · exact absurd hh (by simpa using hc)
        obtain ⟨cur2, hfold, hmem, hblank, hnb⟩ :=
          ih rs cur (fun x hx => hno x (List.mem_cons_of_mem _ hx))
        refine ⟨cur2, hfold, ?_, ?_, ?_⟩
        · intro x hx
          exact List.mem_cons_of_mem _ (hmem x hx)
        · intro hh
          exact hblank ⟨hh.1, fun x hx => hh.2 x (List.mem_cons_of_mem _ hx)⟩
        · intro x hx hxb
          rcases List.mem_cons.mp hx with h1 | h2
          · rw [h1] at hxb
            exact absurd hb hxb
          · exact hnb x h2 hxb
    · rw [if_neg hb]
      obtain ⟨cur2, hfold, hmem, hblank, hnb⟩ :=
        ih rs (cur ++ [ln]) (fun x hx => hno x (List.mem_cons_of_mem _ hx))
      refine ⟨[ln] ++ cur2, ?_, ?_, ?_, ?_⟩
      · rw [hfold, List.append_assoc]
      · intro x hx
        rcases List.mem_append.mp hx with h1 | h2
        · simp at h1
          rw [h1]
          exact List.mem_cons_self _ _
        · exact List.mem_cons_of_mem _ (hmem x h2)
      · intro hh
        exact absurd (hh.2 ln (List.mem_cons_self _ _)) hb
      · intro x hx hxb
        rcases List.mem_cons.mp hx with h1 | h2
        · rw [h1]
          have : ln ∈ cur ++ ([ln] ++ cur2) := by
            rw [← List.append_assoc]
            exact List.mem_append.mpr (Or.inl (List.mem_append.mpr (Or.inr (List.mem_cons_self _ _))))
          exact this
        · have := hnb x h2 hxb
          rw [List.append_assoc] at this
          exact this

theorem destOf_of_not_routeStart (ln : String) (h : routeStart ln = false) :
    destOf ln = "" := by
  have hfind : (List.range ln.data.length).find? (fun i => viableArrow ln.data i) = none := by
    cases hf : (List.range ln.data.length).find? (fun i => viableArrow ln.data i) with
    | none => rfl
    | some i =>
      have hp := List.find?_some hf
      have hm := List.mem_of_find?_eq_some hf
      unfold routeStart at h
      rw [List.any_eq_false] at h
      exact absurd hp (by simpa using h i hm)
  unfold destOf
  rw [hfind]

theorem pyStrip_eq_empty_iff (s : String) :
    pyStrip s = "" ↔ ∀ c ∈ s.data, pyIsSpace c = true := by
  unfold pyStrip trimChars
  constructor
  · intro h c hc
    have hnil : ((s.data.dropWhile pyIsSpace).reverse.dropWhile pyIsSpace).reverse = [] := by
      have := congrArg String.data h
      simpa using this
    rw [List.reverse_eq_nil_iff, List.dropWhile_eq_nil_iff] at hnil
    have hall2 : ∀ x ∈ s.data.dropWhile pyIsSpace, pyIsSpace x = true := by
      intro x hx
      exact hnil x (List.mem_reverse.mpr hx)
    rcases List.mem_append.mp
        (by rw [List.takeWhile_append_dropWhile]; exact hc :
          c ∈ s.data.takeWhile pyIsSpace ++ s.data.dropWhile pyIsSpace) with h1 | h2
    · exact List.mem_takeWhile_imp h1
    · exact hall2 c h2
  · intro hall
    have h1 : s.data.dropWhile pyIsSpace = [] := by
      rw [List.dropWhile_eq_nil_iff]
      exact hall
    rw [h1]
    rfl

theorem mem_chars_joinLines (L : List String) (ln : String) (h : ln ∈ L)
    (c : Char) (hc : c ∈ ln.data) : c ∈ (joinLines L).data := by
  induction L with
  | nil => simp at h
  | cons x rest ih =>
    cases rest with
    | nil =>
      have hx : ln = x := by simpa using h
      rw [show joinLines [x] = x from rfl, ← hx]
      exact hc
    | cons y t =>
      rw [show joinLines (x :: y :: t) = x ++ "\n" ++ joinLines (y :: t) from rfl]
      rcases List.mem_cons.mp h with h1 | h2
      · rw [show ((x ++ "\n" ++ joinLines (y :: t)) : String).data
            = x.data ++ "\n".data ++ (joinLines (y :: t)).data from by
          simp [String.data_append]]
        rw [h1] at hc
        exact List.mem_append.mpr (Or.inl (List.mem_append.mpr (Or.inl hc)))
      · rw [show ((x ++ "\n" ++ joinLines (y :: t)) : String).data
            = x.data ++ "\n".data ++ (joinLines (y :: t)).data from by
          simp [String.data_append]]
        exact List.mem_append.mpr (Or.inr (ih h2))

theorem pyStrip_join_ne_empty (L : List String) (ln : String) (h : ln ∈ L)
    (hn : pyStrip ln ≠ "") : pyStrip (joinLines L) ≠ "" := by
  intro hcontra
  rw [pyStrip_eq_empty_iff] at hcontra
  have hex : ¬ ∀ c ∈ ln.data, pyIsSpace c = true := by
    intro hall
    exact hn ((pyStrip_eq_empty_iff ln).mpr hall)
  push_neg at hex
  obtain ⟨c, hc, hcw⟩ := hex
  exact hcw (hcontra c (mem_chars_joinLines L ln h c hc))

/-- Claim C1 counterexample: the input `"hello"` has no line matching the
route-start pattern, yet `_parse_routes` returns one record (the whole body
as a block with an empty destination), not the empty list. -/
theorem claim_C1_cex :
    (∀ ln ∈ splitlines (stripAnsiStr "hello"), routeStart ln = false) ∧
    parseRoutes "hello" ≠ [] ∧
    parseRoutes "hello" = [{ block := "hello", dest := "" }] := by
  exact ⟨by decide, by decide, by decide⟩

/-- Claim C1 as amended: on input with no line matching the start pattern,
`_parse_routes` returns the empty list exactly when every line is blank
(in particular on the empty string); when some line is non-blank it returns
exactly one record, whose destination is empty. -/
theorem claim_C1_noroute (s : String)
    (h : ∀ ln ∈ splitlines (stripAnsiStr s), routeStart ln = false) :
    ((∀ ln ∈ splitlines (stripAnsiStr s), pyStrip ln = "") → parseRoutes s = []) ∧
    ((∃ ln ∈ splitlines (stripAnsiStr s), pyStrip ln ≠ "") →
      ∃ b, b ≠ "" ∧ parseRoutes s = [{ block := b, dest := "" }]) := by
  obtain ⟨cur2, hfold, hmem, hblank, hnonblank⟩ :=
    parse_nomatch_fold (splitlines (stripAnsiStr s)) [] [] h
  have hfin : (splitlines (stripAnsiStr s)).foldl parseStep ([], []) = ([], cur2) := by
    rw [hfold]
    simp
  constructor
  · intro hall
    have hc2 : cur2 = [] := hblank ⟨rfl, hall⟩
    simp only [parseRoutes]
    rw [hfin, hc2]
    simp
  · rintro ⟨ln, hln, hlnb⟩
    have hcur : ln ∈ ([] : List String) ++ cur2 := hnonblank ln hln hlnb
    have hlncur : ln ∈ cur2 := by simpa using hcur
    have hc2ne : cur2 ≠ [] := by
      intro hh
      rw [hh] at hlncur
      simp at hlncur
    have hblockne : pyStrip (joinLines cur2) ≠ "" :=
      pyStrip_join_ne_empty cur2 ln hlncur hlnb
    have hhead : routeStart (cur2.headD "") = false := by
      cases hcc : cur2 with
      | nil => exact absurd hcc hc2ne
      | cons a t =>
        show routeStart a = false
        refine h a (hmem a ?_)
        rw [hcc]
        exact List.mem_cons_self _ _
    refine ⟨pyStrip (joinLines cur2), hblockne, ?_⟩
    simp only [parseRoutes]
    rw [hfin]
    show (if cur2 ≠ [] then closeBlock cur2 [] else []) = _
    rw [if_pos hc2ne]
    unfold closeBlock
    rw [if_neg hblockne, destOf_of_not_routeStart _ hhead]
    rfl

theorem claim_C1_noroute_witness :
    parseRoutes "" = [] ∧
    ∃ b, b ≠ "" ∧ parseRoutes "x\ny" = [{ block := b, dest := "" }] :=
  ⟨(claim_C1_noroute "" (by decide)).1 (by decide),
   (claim_C1_noroute "x\ny" (by decide)).2 ⟨"x", by decide, by decide⟩⟩
